import Mathlib

/-!
# Verification of the PokerAnalytics core against its specification

Shallow embedding of the analytics core of the PokerAnalytics repository:
bet-size bucketing (`poker_analytics/data/bet_sizing.py`), card parsing
(`poker_analytics/data/cards.py`), flop textures
(`poker_analytics/data/textures.py`), the hand-strength classifier and the
c-bet walker (`analysis/cbet_utils`), the hero flop bet-event walker
(`poker_analytics/services/flop_response_matrix_builder.py`) and the seat
position resolver (`poker_analytics/services/opponent_performance.py`).

Python floats are modelled as rationals (`ℚ`), Python sets as `Finset`,
Python dicts either as association operations or as functions built by
successive update.  Fallible operations return `Option`.
-/

namespace PokerAnalytics

/-! ## Bet-size buckets (`poker_analytics/data/bet_sizing.py`) -/

/-- Embeds the frozen dataclass `BetSizeBucket`.  The Python field `upper`
is a float that may be `float("inf")`; it is modelled as `Option ℚ` with
`none` standing for infinity. -/
structure BetSizeBucket where
  key : String
  label : String
  lower : ℚ
  upper : Option ℚ
deriving DecidableEq, Repr

/-- Embeds `BetSizeBucket.contains`: below `lower` is out; with an infinite
upper bound anything at or above `lower` is in; otherwise the upper bound is
exclusive. -/
def BetSizeBucket.containsQ (b : BetSizeBucket) (ratio : ℚ) : Bool :=
  if ratio < b.lower then false
  else
    match b.upper with
    | none => decide (b.lower ≤ ratio)
    | some u => decide (ratio < u)

/-- Embeds `BET_SIZE_BUCKETS`. -/
def BET_SIZE_BUCKETS : List BetSizeBucket :=
  [⟨"pct_0_25", "0-25%", 0, some 0.25⟩,
   ⟨"pct_25_40", "25-40%", 0.25, some 0.40⟩,
   ⟨"pct_40_60", "40-60%", 0.40, some 0.60⟩,
   ⟨"pct_60_80", "60-80%", 0.60, some 0.80⟩,
   ⟨"pct_80_100", "80-100%", 0.80, some 1.00⟩,
   ⟨"pct_100_125", "100-125%", 1.00, some 1.25⟩,
   ⟨"pct_125_200", "125-200%", 1.25, some 2.00⟩,
   ⟨"pct_200_300", "200-300%", 2.00, some 3.00⟩,
   ⟨"pct_300_plus", "300%+", 3.00, none⟩]

/-- Embeds `bucket_for_ratio`.  `None` input gives `None`; a negative ratio
gives `None`; otherwise the first containing bucket is returned, with the
terminal bucket as the loop fall-through.  (The Python NaN guard has no
rational counterpart: every `ℚ` is a number.) -/
def bucket_for_ratio : Option ℚ → Option BetSizeBucket
  | none => none
  | some r =>
      if r < 0 then none
      else
        match BET_SIZE_BUCKETS.find? (fun b => b.containsQ r) with
        | some b => some b
        | none => BET_SIZE_BUCKETS.getLast?

/-! ## Card parsing (`poker_analytics/data/cards.py`) -/

/-- Embeds the Python `SUITS` set. -/
def SUITS : List Char := ['S', 'H', 'D', 'C']

/-- Embeds the Python `CARD_RANKS` dict as a lookup function; `none` models
a key that is absent. -/
def CARD_RANKS : Char → Option ℕ := fun c =>
  if '2' ≤ c ∧ c ≤ '9' then some (c.toNat - '0'.toNat)
  else
    match c with
    | 'T' => some 10
    | 'J' => some 11
    | 'Q' => some 12
    | 'K' => some 13
    | 'A' => some 14
    | _ => none

/-- Python `str.strip()` on a list of characters. -/
def stripChars (s : List Char) : List Char :=
  ((s.dropWhile Char.isWhitespace).reverse.dropWhile Char.isWhitespace).reverse

/-- Python `str.split()` (split on whitespace runs, no empty parts). -/
def splitWs (s : List Char) : List (List Char) :=
  (s.splitOnP Char.isWhitespace).filter (fun p => p ≠ [])

/-- Stable insertion used by `sortedBy`: `a` goes in front of the first
element it compares `le` to, so earlier elements stay in front of equal
later ones. -/
def insortStable {α : Type} (le : α → α → Bool) (a : α) : List α → List α
  | [] => [a]
  | b :: t => if le a b then a :: b :: t else b :: insortStable le a t

/-- Python `sorted(l, key=...)`: a stable sort, modelled by stable
insertion sort (structurally recursive so that it evaluates). -/
def sortedBy {α : Type} (le : α → α → Bool) : List α → List α
  | [] => []
  | a :: t => insortStable le a (sortedBy le t)

/-- One token of `parse_cards_text`: a two-character token whose upper-cased
first character is a suit and whose upper-cased second character is a rank;
anything else is malformed (`none`). -/
def validToken (p : List Char) : Option (Char × ℕ × String) :=
  match p with
  | [c1, c2] =>
      let suit := c1.toUpper
      let rank := c2.toUpper
      if suit ∈ SUITS ∧ (CARD_RANKS rank).isSome then
        some (suit, (CARD_RANKS rank).getD 0, String.mk [suit, rank])
      else none
  | _ => none

/-- The loop body of `parse_cards_text`: accumulate parsed tuples, but any
malformed token discards everything and returns the empty list. -/
def parseCardsGo : List (List Char) → List (Char × ℕ × String) → List (Char × ℕ × String)
  | [], acc => acc
  | p :: rest, acc =>
      match validToken p with
      | some card => parseCardsGo rest (acc ++ [card])
      | none => []

/-- The token list `parse_cards_text` iterates over (split, strip, drop
falsy parts). -/
def partsOf (t : String) : List (List Char) :=
  ((splitWs t.toList).map stripChars).filter (fun p => p ≠ [])

/-- Embeds `parse_cards_text` (`data/cards.py`).  `none` models a `None`
argument; the empty string is the other falsy early return. -/
def parse_cards_text (text : Option String) : List (Char × ℕ × String) :=
  match text with
  | none => []
  | some t => if t = "" then [] else parseCardsGo (partsOf t) []

/-! ## Flop textures (`poker_analytics/data/textures.py`) -/

namespace Textures

/-- Embeds `RANK_VALUES` of `textures.py` (same table as `CARD_RANKS`). -/
def RANK_VALUES : Char → Option ℕ := CARD_RANKS

/-- Embeds `SUIT_CHARS`. -/
def SUIT_CHARS : List Char := ['C', 'D', 'H', 'S']

/-- Embeds `BROADWAY_RANKS`. -/
def BROADWAY_RANKS : List Char := ['J', 'Q', 'K', 'A']

/-- Embeds the frozen dataclass `Card` of `textures.py`. -/
structure Card where
  rank : Char
  suit : Char
deriving DecidableEq, Repr

/-- Embeds the `Card.rank_value` property.  Parsed cards always carry a rank
present in `RANK_VALUES`, so the fallback value is never observed. -/
def Card.rank_value (c : Card) : ℕ := (RANK_VALUES c.rank).getD 0

/-- Embeds `TextureSpec`. -/
structure TextureSpec where
  key : String
  title : String
  description : String
  predicate : List Card → Bool

/-- Python `str.replace("10", "T")`: left-to-right, non-overlapping. -/
def replaceTen : List Char → List Char
  | '1' :: '0' :: rest => 'T' :: replaceTen rest
  | c :: rest => c :: replaceTen rest
  | [] => []

/-- Embeds `_parse_token`: strip, drop `/`, upper-case, normalise `10` to
`T`, then read rank and suit in either order, with a rank-first/suit-last
fallback for longer tokens. -/
def parse_token (raw : String) : Option Card :=
  let token1 := (stripChars raw.toList).filter (fun c => c ≠ '/')
  if token1 = [] then none
  else
    let token := replaceTen (token1.map Char.toUpper)
    match h : token with
    | f :: s :: _ =>
        if (RANK_VALUES f).isSome ∧ s ∈ SUIT_CHARS then
          some ⟨f, s⟩
        else if f ∈ SUIT_CHARS ∧ (RANK_VALUES s).isSome then
          some ⟨s, f⟩
        else if token.getLast (by simp [h]) ∈ SUIT_CHARS ∧ (RANK_VALUES f).isSome then
          some ⟨f, token.getLast (by simp [h])⟩
        else none
    | _ => none

/-- Embeds `parse_flop`: tabs to spaces, whitespace split, parse each token,
keep the tokens that parsed (malformed tokens are silently dropped). -/
def parse_flop (text : Option String) : List Card :=
  match text with
  | none => []
  | some t =>
      if t = "" then []
      else
        let parts := (splitWs (t.toList.map (fun c => if c = '\t' then ' ' else c))).filter
          (fun p => p ≠ [])
        (parts.map (fun p => parse_token (String.mk p))).filterMap id

/-- Embeds `_has_pair`. -/
def has_pair (cards : List Card) : Bool :=
  let ranks := cards.map Card.rank
  decide (ranks.length ≠ ranks.toFinset.card)

/-- Embeds `_is_connected`. -/
def is_connected (cards : List Card) : Bool :=
  if cards.length ≠ 3 then false
  else
    let values := sortedBy (fun a b => decide (a ≤ b)) (cards.map Card.rank_value)
    if values.getLastD 0 - values.headD 0 ≤ 4 then true
    else if 14 ∈ values then
      let wheel := sortedBy (fun a b => decide (a ≤ b))
        (values.map (fun v => if v = 14 then 1 else v))
      decide (wheel.getLastD 0 - wheel.headD 0 ≤ 4)
    else false

/-- Embeds `_two_broadways`. -/
def two_broadways (cards : List Card) : Bool :=
  2 ≤ cards.countP (fun c => c.rank ∈ BROADWAY_RANKS)

/-- Embeds `FLOP_TEXTURE_SPECS` (ordered list of named predicates). -/
def FLOP_TEXTURE_SPECS : List TextureSpec :=
  [⟨"rainbow", "Rainbow Flops", "Exactly three suits represented on the flop.",
      fun cards => decide ((cards.map Card.suit).toFinset.card = 3)⟩,
   ⟨"monotone", "Monotone Flops", "All three cards share the same suit.",
      fun cards => decide ((cards.map Card.suit).toFinset.card = 1 ∧ cards.length = 3)⟩,
   ⟨"two_tone", "Two-Tone Flops", "Exactly two suits present.",
      fun cards => decide ((cards.map Card.suit).toFinset.card = 2)⟩,
   ⟨"paired", "Paired Flops", "Any rank appears at least twice.", has_pair⟩,
   ⟨"connected", "Connected Flops", "Rank spread within four cards (Ace can play low).",
      is_connected⟩,
   ⟨"ace_high", "Ace-High Flops", "An Ace is present and is the highest rank.",
      fun cards => decide (cards ≠ [] ∧ (cards.map Card.rank_value).foldl Nat.max 0 = 14)⟩,
   ⟨"low", "Low Flops (All <= Ten)", "No card higher than Ten.",
      fun cards => decide (cards ≠ [] ∧ ∀ c ∈ cards, c.rank_value ≤ 10)⟩,
   ⟨"high", "High Flops (>=2 Broadways)", "At least two Broadway ranks (J, Q, K, A).",
      two_broadways⟩]

/-- Embeds `detect_textures`. -/
def detect_textures (flop_text : Option String) : List TextureSpec :=
  let cards := parse_flop flop_text
  if cards.length ≠ 3 then []
  else FLOP_TEXTURE_SPECS.filter (fun spec => spec.predicate cards)

end Textures

/-! ## Hand-strength classifier (`analysis/cbet_utils`, `_classify_hand`) -/

namespace Cbet

/-- Embeds the card tuples `(suit, rank_value, token)` produced by
`_parse_cards` in `cbet_utils`. -/
structure PCard where
  suit : Char
  rank : ℕ
  tok : String
deriving DecidableEq, Repr

/-- Ranks of a card list (`[r for _, r, _ in cards]`). -/
def ranksOf (cs : List PCard) : List ℕ := cs.map PCard.rank

/-- Suits of a card list (`[s for s, _, _ in cards]`). -/
def suitsOf (cs : List PCard) : List Char := cs.map PCard.suit

/-- Distinct keys of a Python `Counter` built over a list. -/
def counterKeys {α : Type} [DecidableEq α] (l : List α) : List α := l.dedup

/-- The multiset of values of a Python `Counter` built over a list. -/
def counterValues {α : Type} [DecidableEq α] (l : List α) : List ℕ :=
  l.dedup.map (fun x => l.count x)

/-- Python `sorted(l, reverse=True)`. -/
def descSort (l : List ℕ) : List ℕ := sortedBy (fun a b => decide (b ≤ a)) l

/-- Embeds `_has_flush`: some suit occurs at least five times. -/
def has_flush (cards : List PCard) : Bool :=
  (counterValues (suitsOf cards)).any (fun v => 5 ≤ v)

/-- Embeds `_has_flush_draw`: some suit reaches four between hole and board
with at least one of it in the hole.  (Note the source tests `count >= 4`,
not `== 4`.) -/
def has_flush_draw (hole board : List PCard) : Bool :=
  let total := suitsOf hole ++ suitsOf board
  (counterKeys total).any (fun s => decide (4 ≤ total.count s) && decide (0 < (suitsOf hole).count s))

/-- Membership in the Python set `unique` (ranks, with 1 added when an Ace
is present) used by `_straight_info`. -/
def wheelMem (rs : List ℕ) (r : ℕ) : Bool :=
  rs.contains r || (r == 1 && rs.contains 14)

/-- The made-straight test of `_straight_info`: five consecutive ranks
starting at 1..10, wheel-aware. -/
def straight_rule (rs : List ℕ) : Bool :=
  ((List.range 10).map (· + 1)).any (fun start =>
    (List.range 5).all (fun off => wheelMem rs (start + off)))

/-- Embeds `_straight_info` and returns `(straight, oesd)`.  The OESD scan
looks for a fully covered 4-window containing a hole rank whose two
completing ranks both fit in 1..14. -/
def straight_info (hole board : List PCard) : Bool × Bool :=
  let ranks := ranksOf (hole ++ board)
  if straight_rule ranks then (true, false)
  else
    let holeRanks := ranksOf hole
    let oesd := ((List.range 11).map (· + 1)).any (fun start =>
      (List.range 4).all (fun off => wheelMem ranks (start + off)) &&
      (List.range 4).any (fun off => wheelMem holeRanks (start + off)) &&
      decide (1 ≤ start - 1) && decide (start + 4 ≤ 14))
    (false, oesd)

/-- `combined = hole + board`. -/
def combined (hole board : List PCard) : List PCard := hole ++ board

/-- `board_unique = sorted(set(board_ranks), reverse=True)`. -/
def board_unique (board : List PCard) : List ℕ := descSort (ranksOf board).dedup

/-- `hole_pair = len(hole_ranks) == 2 and hole_ranks[0] == hole_ranks[1]`. -/
def hole_pair (hole : List PCard) : Bool :=
  match ranksOf hole with
  | [a, b] => a == b
  | _ => false

/-- `counts_sorted = sorted(rank_counts.values(), reverse=True)`. -/
def counts_sorted (hole board : List PCard) : List ℕ :=
  descSort (counterValues (ranksOf (combined hole board)))

/-- `made_four = any(v >= 4 for v in rank_counts.values())`. -/
def made_four (hole board : List PCard) : Bool :=
  (counterValues (ranksOf (combined hole board))).any (fun v => 4 ≤ v)

/-- `made_full = len(counts_sorted) >= 2 and counts_sorted[0] >= 3 and
counts_sorted[1] >= 2`. -/
def made_full (hole board : List PCard) : Bool :=
  let cs := counts_sorted hole board
  decide (2 ≤ cs.length) && decide (3 ≤ cs.headD 0) && decide (2 ≤ (cs.get? 1).getD 0)

/-- `made_trips_only`. -/
def made_trips_only (hole board : List PCard) : Bool :=
  (counterValues (ranksOf (combined hole board))).any (fun v => 3 ≤ v) &&
    !made_full hole board && !made_four hole board

/-- `made_two_pair`. -/
def made_two_pair (hole board : List PCard) : Bool :=
  decide (2 ≤ (counterValues (ranksOf (combined hole board))).countP (fun v => 2 ≤ v)) &&
    !made_full hole board && !made_four hole board

/-- `max_board`, `second_board`, `third_board`: the board's distinct ranks
from the top. -/
def nth_board (board : List PCard) (n : ℕ) : Option ℕ := (board_unique board).get? n

/-- The `overpair` flag. -/
def overpair (hole board : List PCard) : Bool :=
  hole_pair hole &&
    (match nth_board board 0 with
     | some m => decide (m < (ranksOf hole).headD 0)
     | none => false) &&
    !made_two_pair hole board && !made_full hole board && !made_four hole board

/-- The `top_pair` flag. -/
def top_pair (hole board : List PCard) : Bool :=
  !(made_full hole board || made_four hole board || made_trips_only hole board ||
      made_two_pair hole board || overpair hole board) &&
    (match nth_board board 0 with
     | some m => (ranksOf hole).any (fun r => r == m)
     | none => false)

/-- The `middle_pair` flag. -/
def middle_pair (hole board : List PCard) : Bool :=
  !(made_full hole board || made_four hole board || made_trips_only hole board ||
      made_two_pair hole board || overpair hole board || top_pair hole board) &&
    (match nth_board board 1 with
     | some m => (ranksOf hole).any (fun r => r == m)
     | none => false)

/-- The `bottom_pair` flag. -/
def bottom_pair (hole board : List PCard) : Bool :=
  !(made_full hole board || made_four hole board || made_trips_only hole board ||
      made_two_pair hole board || overpair hole board || top_pair hole board ||
      middle_pair hole board) &&
    (match nth_board board 2 with
     | some m => (ranksOf hole).any (fun r => r == m)
     | none => false)

/-- The `underpair` flag. -/
def underpair (hole board : List PCard) : Bool :=
  hole_pair hole &&
    (match nth_board board 0 with
     | some m => decide ((ranksOf hole).headD 0 < m)
     | none => false) &&
    !made_full hole board && !made_four hole board && !made_trips_only hole board

/-- Embeds the result dict of `_classify_hand`. -/
structure HandClass where
  primary : String
  flush_draw : Bool
  oesd : Bool
  made_flush : Bool
  made_straight : Bool
  made_full : Bool
deriving DecidableEq, Repr

/-- Embeds `_classify_hand`: the flag cascade followed by the `elif` chain
choosing the primary category. -/
def classify_hand (hole board : List PCard) : HandClass :=
  let mflush := has_flush (combined hole board)
  let si := straight_info hole board
  let fdraw := if mflush then false else has_flush_draw hole board
  { primary :=
      if made_full hole board then "Full House"
      else if made_four hole board then "Quads"
      else if mflush then "Flush"
      else if si.1 then "Straight"
      else if made_trips_only hole board then "Trips/Set"
      else if made_two_pair hole board then "Two Pair"
      else if overpair hole board then "Overpair"
      else if top_pair hole board then "Top Pair"
      else if middle_pair hole board then "Middle Pair"
      else if bottom_pair hole board then "Bottom Pair"
      else if underpair hole board then "Underpair"
      else "Air",
    flush_draw := fdraw,
    oesd := si.2,
    made_flush := mflush,
    made_straight := si.1,
    made_full := made_full hole board }

/-! Claim-side predicates, written from the words of spec section 4.2 (raw
category tests, without the source's cascading exclusion guards). -/

/-- Count of a rank in `hole + board`. -/
def countR (hole board : List PCard) (r : ℕ) : ℕ := (ranksOf (combined hole board)).count r

/-- Spec words: best rank appears at least three times and another rank at
least twice. -/
def spec_full (hole board : List PCard) : Bool :=
  (combined hole board).any (fun c1 => (combined hole board).any (fun c2 =>
    decide (c1.rank ≠ c2.rank) && decide (3 ≤ countR hole board c1.rank) &&
      decide (2 ≤ countR hole board c2.rank)))

/-- Spec words: any rank at least four times. -/
def spec_quads (hole board : List PCard) : Bool :=
  (combined hole board).any (fun c => decide (4 ≤ countR hole board c.rank))

/-- Spec words: any suit at least five times in the combined cards. -/
def spec_flush (hole board : List PCard) : Bool :=
  (combined hole board).any (fun c =>
    decide (5 ≤ (suitsOf (combined hole board)).count c.suit))

/-- Spec words: five consecutive ranks, wheel-aware. -/
def spec_straight (hole board : List PCard) : Bool :=
  straight_rule (ranksOf (combined hole board))

/-- Spec words: any rank at least three times. -/
def spec_trips (hole board : List PCard) : Bool :=
  (combined hole board).any (fun c => decide (3 ≤ countR hole board c.rank))

/-- Spec words: at least two ranks with count at least two. -/
def spec_two_pair (hole board : List PCard) : Bool :=
  (combined hole board).any (fun c1 => (combined hole board).any (fun c2 =>
    decide (c1.rank ≠ c2.rank) && decide (2 ≤ countR hole board c1.rank) &&
      decide (2 ≤ countR hole board c2.rank)))

/-- Spec words: hole pocket pair ranked above every board rank. -/
def spec_overpair (hole board : List PCard) : Bool :=
  hole_pair hole && board.all (fun b => decide (b.rank < (ranksOf hole).headD 0))

/-- Spec words: a hole card matches the board's (n+1)-st highest distinct
rank. -/
def spec_pair_with (hole board : List PCard) (n : ℕ) : Bool :=
  match nth_board board n with
  | some m => (ranksOf hole).any (fun r => r == m)
  | none => false

/-- Spec words: hole pocket pair ranked below the top board rank. -/
def spec_underpair (hole board : List PCard) : Bool :=
  hole_pair hole &&
    (match nth_board board 0 with
     | some m => decide ((ranksOf hole).headD 0 < m)
     | none => false)

/-- The spec's priority-ordered first-match choice of primary category. -/
def spec_primary (hole board : List PCard) : String :=
  if spec_full hole board then "Full House"
  else if spec_quads hole board then "Quads"
  else if spec_flush hole board then "Flush"
  else if spec_straight hole board then "Straight"
  else if spec_trips hole board then "Trips/Set"
  else if spec_two_pair hole board then "Two Pair"
  else if spec_overpair hole board then "Overpair"
  else if spec_pair_with hole board 0 then "Top Pair"
  else if spec_pair_with hole board 1 then "Middle Pair"
  else if spec_pair_with hole board 2 then "Bottom Pair"
  else if spec_underpair hole board then "Underpair"
  else "Air"

end Cbet

/-! ## Position resolver (`poker_analytics/services/opponent_performance.py`) -/

/-- Python dict modelled as a lookup function; `dictInsert` is assignment
(later assignments win). -/
def dictEmpty : String → Option String := fun _ => none

/-- `mapping[k] = v`. -/
def dictInsert (m : String → Option String) (k v : String) : String → Option String :=
  fun x => if x = k then some v else m x

namespace OppPerf

/-- Embeds `POSITIONS_BY_COUNT` (`.get` returns `none` off the table). -/
def POSITIONS_BY_COUNT : ℕ → Option (List String)
  | 2 => some ["SB", "BB"]
  | 3 => some ["SB", "BB", "BTN"]
  | 4 => some ["SB", "BB", "CO", "BTN"]
  | 5 => some ["SB", "BB", "HJ", "CO", "BTN"]
  | 6 => some ["SB", "BB", "LJ", "HJ", "CO", "BTN"]
  | 7 => some ["SB", "BB", "UTG", "LJ", "HJ", "CO", "BTN"]
  | 8 => some ["SB", "BB", "UTG", "UTG+1", "LJ", "HJ", "CO", "BTN"]
  | 9 => some ["SB", "BB", "UTG", "UTG+1", "UTG+2", "LJ", "HJ", "CO", "BTN"]
  | _ => none

/-- The player dicts consumed by `_assign_positions_from_seats` (name and
seat; the other keys are not read by it). -/
structure Player where
  name : String
  seat : ℤ
deriving DecidableEq, Repr

/-- The default player used to model Python indexing where our hypotheses
guarantee the index is in range (Python would raise there). -/
def dummyPlayer : Player := ⟨"", 0⟩

/-- The seat-sorted dealt players (`sorted([p for p in players if p['name']
in dealt_players], key=lambda p: p['seat'])`). -/
def seatSorted (players : List Player) (dealt : Finset String) : List Player :=
  sortedBy (fun p q => decide (p.seat ≤ q.seat)) (players.filter (fun p => p.name ∈ dealt))

/-- Builds the `mapping` dict out of `zip(order, rotation)`. -/
def zipAssign (order : List String) (rotation : List Player) : String → Option String :=
  (order.zip rotation).foldl (fun m pr => dictInsert m pr.2.name pr.1) dictEmpty

/-- The dealer-branch rotation: `idx = (dealer_idx - (count - 1 - i)) %
len(seat_sorted)` walks backwards so the dealer lands last. -/
def dealer_rotation (ss : List Player) (count dealer_idx : ℕ) : List Player :=
  (List.range count).map (fun (i : ℕ) =>
    ss.getD ((((dealer_idx : ℤ) - ((count : ℤ) - 1 - (i : ℤ))) % (ss.length : ℤ)).toNat)
      dummyPlayer)

/-- The dealer branch of `_assign_positions_from_seats`; `none` when it
falls through to the small-blind rotation. -/
def dealer_branch (ss : List Player) (count : ℕ) (order : List String)
    (dealt : Finset String) (dealer_name : Option String) :
    Option (String → Option String) :=
  match dealer_name with
  | some dn =>
      if dn ∈ dealt ∧ "BTN" ∈ order then
        match ss.findIdx? (fun p => p.name = dn) with
        | some dealer_idx => some (zipAssign order (dealer_rotation ss count dealer_idx))
        | none => none
      else none
  | none => none

/-- The fallback rotation: forward from `start_index`. -/
def fallback_rotation (ss : List Player) (count start_index : ℕ) : List Player :=
  (List.range count).map (fun (i : ℕ) =>
    ss.getD ((((start_index : ℤ) + (i : ℤ)) % (ss.length : ℤ)).toNat) dummyPlayer)

/-- The small-blind fallback of `_assign_positions_from_seats`.  The
`name_to_player` dict keeps the last player per name, hence the reversed
`find?`; a missing index (Python would raise on `seat_sorted[0]` with an
empty list) is modelled by the dummy player. -/
def fallback_branch (ss : List Player) (count : ℕ) (order : List String)
    (small_blind_name : Option String) : String → Option String :=
  let sb_seat :=
    match small_blind_name with
    | some sb =>
        match ss.reverse.find? (fun p => p.name = sb) with
        | some p => p.seat
        | none => (ss.headD dummyPlayer).seat
    | none => (ss.headD dummyPlayer).seat
  let start_index := (ss.findIdx? (fun p => p.seat = sb_seat)).getD 0
  zipAssign order (fallback_rotation ss count start_index)

/-- Embeds `_assign_positions_from_seats`. -/
def assign_positions_from_seats (players : List Player) (dealt : Finset String)
    (small_blind_name : Option String) (dealer_name : Option String) :
    String → Option String :=
  if players = [] ∨ dealt = ∅ then dictEmpty
  else
    match POSITIONS_BY_COUNT dealt.card with
    | none => dictEmpty
    | some order =>
      if order.length ≠ dealt.card then dictEmpty
      else
        match dealer_branch (seatSorted players dealt) dealt.card order dealt dealer_name with
        | some m => m
        | none => fallback_branch (seatSorted players dealt) dealt.card order small_blind_name

end OppPerf

/-! ## Hero position labels (`flop_response_matrix_builder.py`) -/

namespace Builder

/-- Embeds the frozen dataclass `PlayerInfo`. -/
structure PlayerInfo where
  name : String
  seat : ℤ
  is_button : Bool
deriving DecidableEq, Repr

/-- Default used for guarded indexing. -/
def dummyInfo : PlayerInfo := ⟨"", 0, false⟩

/-- The seat order rotated so the button player comes first (shared by
`_position_index` and `_position_labels`). -/
def order_from_button (players : List PlayerInfo) : List PlayerInfo :=
  let sorted_players := sortedBy (fun p q => decide (p.seat ≤ q.seat)) players
  let button_index := (sorted_players.findIdx? (fun p => p.is_button)).getD 0
  sorted_players.drop button_index ++ sorted_players.take button_index

/-- Embeds `_position_labels`: canonical labels assigned starting with BTN
at the button seat, with `"P<idx>"` once the canonical list runs out. -/
def position_labels (players : List PlayerInfo) : String → Option String :=
  if players = [] then dictEmpty
  else
    let canonical := ["BTN", "SB", "BB", "UTG", "UTG+1", "UTG+2", "LJ", "HJ", "CO"]
    (order_from_button players).enum.foldl
      (fun m pr => dictInsert m pr.2.name (canonical.getD pr.1 ("P" ++ toString pr.1)))
      dictEmpty

/-- Embeds `_position_index` (pre-flop action order: button acts last). -/
def position_index (players : List PlayerInfo) : String → Option ℕ :=
  if players = [] then fun _ => none
  else
    let ofb := order_from_button players
    let action_order := ofb.drop 1 ++ ofb.take 1
    action_order.enum.foldl
      (fun m pr => fun x => if x = pr.2.name then some pr.1 else m x)
      (fun _ => none)

end Builder

/-! ## Hero flop bet-event walker (`flop_response_matrix_builder.py`,
`_events_from_hand_history`) -/

namespace Builder

/-- Embeds the module type-set constants of
`flop_response_matrix_builder.py`. -/
def BET_TYPES : List String := ["5", "7"]

/-- `RAISE_TYPES`. -/
def RAISE_TYPES : List String := ["23", "7"]

/-- `CALL_TYPES`. -/
def CALL_TYPES : List String := ["3"]

/-- `CHECK_TYPES`. -/
def CHECK_TYPES : List String := ["4"]

/-- `FOLD_TYPES`. -/
def FOLD_TYPES : List String := ["0"]

/-- `POST_TYPES`. -/
def POST_TYPES : List String := ["1", "2"]

/-- `ALL_IN_TYPES`. -/
def ALL_IN_TYPES : List String := ["7"]

/-- Python `x in TYPES` where `x` may be `None`. -/
def optMem (t : Option String) (l : List String) : Bool :=
  match t with
  | some s => l.contains s
  | none => false

/-- One parsed `<action>` element: `player`/`type` attributes may be
missing; `amount` is the value `_safe_amount` produced from `sum`. -/
structure BAction where
  player : Option String
  type : Option String
  amount : ℚ
deriving DecidableEq, Repr

/-- One `<round>` element: its `no` attribute (already through `int`) and
its actions. -/
structure BRound where
  no : ℕ
  actions : List BAction
deriving DecidableEq, Repr

/-- The event dict built by `_events_from_hand_history`. -/
structure BEvent where
  hero_position : String
  bet_type : String
  in_position : Bool
  player_count : ℕ
  ratio : ℚ
  bucket_key : String
  is_all_in : Bool
  is_one_bb : Bool
  villain_outcome : String
deriving DecidableEq, Repr

/-- The walker's mutable locals of `_events_from_hand_history`. -/
structure WalkSt where
  total_pot : ℚ
  active_players : Finset String
  preflop_aggressor : Option String
  events : List BEvent
  flop_player_count : Option ℕ
  flop_active_snapshot : Option (Finset String)
  hero_event_recorded : Bool

/-- The per-hand inputs threaded through the walker. -/
structure HandCtx where
  hero : String
  hero_position_label : String
  position_index : String → Option ℕ
  big_blind : ℚ

/-- Embeds `_classify_bet`. -/
def classify_bet (hero : String) (preflop_aggressor : Option String)
    (players_acted : Finset String) (flop_active_players : Finset String) : String :=
  if preflop_aggressor = some hero then "cbet"
  else
    match preflop_aggressor with
    | some ag => if ag ∈ flop_active_players ∧ ag ∉ players_acted then "donk" else "stab"
    | none => "stab"

/-- Embeds `_hero_in_position`: hero holds the largest position index among
the active players (`max` is insensitive to the Python set iteration
order). -/
def hero_in_position (hero : String) (position_index : String → Option ℕ)
    (active_players : Finset String) : Bool :=
  let indices := (active_players.filter (fun p => (position_index p).isSome)).image
    (fun p => (position_index p).getD 0)
  if indices = ∅ then false
  else
    match position_index hero with
    | none => false
    | some hi => decide (hi = indices.sup id)

/-- Embeds the loop of `_villain_outcome` with its running `outcome`
local. -/
def villain_outcome_go (hero : String) (outcome : String) : List BAction → String
  | [] => outcome
  | a :: rest =>
      match a.player with
      | none => outcome
      | some p =>
          if p = hero then outcome
          else if optMem a.type FOLD_TYPES || optMem a.type CHECK_TYPES then
            villain_outcome_go hero outcome rest
          else if optMem a.type CALL_TYPES then
            villain_outcome_go hero "call" rest
          else if optMem a.type BET_TYPES || optMem a.type RAISE_TYPES then
            "raise"
          else villain_outcome_go hero outcome rest

/-- Embeds `_villain_outcome`. -/
def villain_outcome (actions : List BAction) (hero : String) : String :=
  villain_outcome_go hero "fold" actions

/-- The description of the event that the flop loop would append at a
given action (`None` when no event is appended there): the guard chain,
the `pot_before` snapshot, the ratio/bucket pair and the event dict of
`_events_from_hand_history`. -/
def flop_emit (ctx : HandCtx) (st : WalkSt) (players_acted : Finset String)
    (flop_bet_seen : Bool) (player act_type : String) (amount : ℚ)
    (rest : List BAction) : Option BEvent :=
  let pot_before := st.total_pot
  if !st.hero_event_recorded && decide (player = ctx.hero) &&
      decide (act_type ∈ BET_TYPES) && decide (0 < amount) && !flop_bet_seen &&
      (match st.flop_player_count with
       | some n => decide (n ≠ 0)
       | none => false) &&
      (match st.flop_player_count with
       | some n => decide (2 ≤ n)
       | none => false) &&
      (match st.flop_active_snapshot with
       | some s => decide s.Nonempty
       | none => false) then
    let snapshot := st.flop_active_snapshot.getD ∅
    let bet_type := classify_bet ctx.hero st.preflop_aggressor players_acted snapshot
    let hero_in_pos := hero_in_position ctx.hero ctx.position_index snapshot
    let ratio : Option ℚ := if 0 < pot_before then some (amount / pot_before) else none
    match bucket_for_ratio ratio, ratio with
    | some bucket, some r =>
        let tolerance := max (1 / 1000000 : ℚ) (ctx.big_blind * (1 / 10000))
        some
          { hero_position := ctx.hero_position_label
            bet_type := bet_type
            in_position := hero_in_pos
            player_count := st.flop_player_count.getD 0
            ratio := r
            bucket_key := bucket.key
            is_all_in := decide (act_type ∈ ALL_IN_TYPES)
            is_one_bb := decide (|amount - ctx.big_blind| ≤ tolerance)
            villain_outcome := villain_outcome rest ctx.hero }
    | _, _ => none
  else none

/-- One valid iteration of the flop action loop: the possible event
append, the `flop_bet_seen` update, the fold removal and the pot update.
Returns the updated state and `flop_bet_seen`. -/
def flop_step (ctx : HandCtx) (st : WalkSt) (players_acted : Finset String)
    (flop_bet_seen : Bool) (player act_type : String) (amount : ℚ)
    (rest : List BAction) : WalkSt × Bool :=
  let st1 :=
    match flop_emit ctx st players_acted flop_bet_seen player act_type amount rest with
    | some e => { st with events := st.events ++ [e], hero_event_recorded := true }
    | none => st
  let flop_bet_seen2 :=
    flop_bet_seen || (decide ((act_type ∈ BET_TYPES ∨ act_type ∈ RAISE_TYPES) ∧ 0 < amount))
  let st2 :=
    if act_type ∈ FOLD_TYPES then
      { st1 with active_players := st1.active_players.erase player }
    else st1
  let st3 := if 0 < amount then { st2 with total_pot := st2.total_pot + amount } else st2
  (st3, flop_bet_seen2)

/-- The round-2 (flop) action loop of `_events_from_hand_history`,
carrying the per-street locals `players_acted` and `flop_bet_seen`.  The
recursion's tail is exactly `actions[idx + 1:]`, which feeds
`_villain_outcome`. -/
def flop_go (ctx : HandCtx) (st : WalkSt) (players_acted : Finset String)
    (flop_bet_seen : Bool) : List BAction → WalkSt
  | [] => st
  | a :: rest =>
      match a.player, a.type with
      | some player, some act_type =>
          let sb := flop_step ctx st players_acted flop_bet_seen player act_type a.amount rest
          flop_go ctx sb.1 (insert player players_acted) sb.2 rest
      | _, _ => flop_go ctx st players_acted flop_bet_seen rest

/-- The round-1 (pre-flop) action loop. -/
def preflop_go (st : WalkSt) : List BAction → WalkSt
  | [] => st
  | a :: rest =>
      match a.player, a.type with
      | some player, some act_type =>
          let amount := a.amount
          let st1 := if 0 < amount then { st with total_pot := st.total_pot + amount } else st
          let st2 :=
            if act_type ∈ FOLD_TYPES then
              { st1 with active_players := st1.active_players.erase player }
            else if act_type ∉ CHECK_TYPES then
              { st1 with active_players := insert player st1.active_players }
            else st1
          let st3 :=
            if act_type ∈ RAISE_TYPES ∧ 0 < amount then
              { st2 with preflop_aggressor := some player }
            else st2
          preflop_go st3 rest
      | _, _ => preflop_go st rest

/-- The action loop of every other round number (blinds, turn, river):
amounts count into the pot even for actions without a player. -/
def other_go (st : WalkSt) : List BAction → WalkSt
  | [] => st
  | a :: rest =>
      let st1 := if 0 < a.amount then { st with total_pot := st.total_pot + a.amount } else st
      let st2 :=
        match a.player with
        | some p =>
            if optMem a.type FOLD_TYPES then
              { st1 with active_players := st1.active_players.erase p }
            else st1
        | none => st1
      other_go st2 rest

/-- The round dispatch loop; a flop reached with fewer than two active
players `break`s out of the whole loop. -/
def walk_rounds (ctx : HandCtx) (st : WalkSt) : List BRound → WalkSt
  | [] => st
  | r :: rs =>
      if r.no = 1 then walk_rounds ctx (preflop_go st r.actions) rs
      else if r.no = 2 then
        if st.active_players.card < 2 then st
        else
          let st1 :=
            if st.flop_player_count = none then
              { st with
                  flop_player_count := some st.active_players.card
                  flop_active_snapshot := some st.active_players }
            else st
          walk_rounds ctx (flop_go ctx st1 ∅ false r.actions) rs
      else walk_rounds ctx (other_go st r.actions) rs

/-- The walker's initial state. -/
def initSt (players : List PlayerInfo) : WalkSt :=
  ⟨0, (players.map PlayerInfo.name).toFinset, none, [], none, none, false⟩

/-- Embeds `_events_from_hand_history` after the XML parsing layer: hero
name, parsed players, extracted big blind and parsed rounds are the
structured inputs.  All pre-walk guards of the source are kept. -/
def events_from_hand (hero : String) (players : List PlayerInfo)
    (big_blind : Option ℚ) (rounds : List BRound) : List BEvent :=
  if hero ∉ players.map PlayerInfo.name then []
  else
    match position_labels players hero, position_index players hero with
    | some hero_label, some _ =>
        match big_blind with
        | none => []
        | some bb =>
            if bb ≤ 0 then []
            else
              let ctx : HandCtx := ⟨hero, hero_label, position_index players, bb⟩
              (walk_rounds ctx (initSt players)
                (sortedBy (fun r1 r2 => decide (r1.no ≤ r2.no)) rounds)).events
    | _, _ => []

/-- The bet-event rule as the claim states it, over one street's action
list: scan for the first action by the actor of interest with a qualifying
type, positive amount, and no qualifying bet seen yet; report that action's
pot-before and amount (the event), or `none` when the street has no such
action or the pot-before is zero (dropped). -/
def spec_flop_event (qtypes : List String) (hero : String) :
    ℚ → Bool → List BAction → Option (ℚ × ℚ)
  | _, _, [] => none
  | pot, bet_seen, a :: rest =>
      match a.player, a.type with
      | some player, some t =>
          if player = hero ∧ t ∈ qtypes ∧ 0 < a.amount ∧ bet_seen = false then
            if 0 < pot then some (pot, a.amount) else none
          else
            spec_flop_event qtypes hero (pot + if 0 < a.amount then a.amount else 0)
              (bet_seen || decide ((t ∈ BET_TYPES ∨ t ∈ RAISE_TYPES) ∧ 0 < a.amount)) rest
      | _, _ => spec_flop_event qtypes hero pot bet_seen rest

/-- The claim's qualifying action types: bet, all-in, raise. -/
def claim_bet_types : List String := ["5", "7", "23"]

/-- Sum of the positive amounts of the valid (player and type present)
actions — what the pre-flop and flop loops add to the pot. -/
def posValidSum (actions : List BAction) : ℚ :=
  ((actions.filter (fun a => a.player.isSome && a.type.isSome && decide (0 < a.amount))).map
    (fun a => a.amount)).sum

/-- Sum of all positive amounts — what the blinds/turn/river loop adds to
the pot (no validity check before the pot update there). -/
def posSum (actions : List BAction) : ℚ :=
  ((actions.filter (fun a => decide (0 < a.amount))).map (fun a => a.amount)).sum

end Builder

/-! ## Checkpoint c-bet walker (`analysis/.ipynb_checkpoints/cbet_utils-checkpoint.py`,
`load_cbet_events`) -/

namespace Cbet

/-- The checkpoint's action-type sets (they differ from the builder's:
`FOLD_TYPES` also holds the check type `"4"`). -/
def BET_TYPES : List String := ["5", "7"]

/-- `RAISE_TYPES = {"23", "7"}`. -/
def RAISE_TYPES : List String := ["23", "7"]

/-- `CALL_TYPES = {"3"}`. -/
def CALL_TYPES : List String := ["3"]

/-- `FOLD_TYPES = {"0", "4"}`. -/
def FOLD_TYPES : List String := ["0", "4"]

/-- `BET_TYPES.union(RAISE_TYPES)`, the c-bet trigger test. -/
def AGG_TYPES : List String := ["5", "7", "23"]

/-- One `<action>` element as the checkpoint reads it: `player` and `type`
attributes may be absent, `sum` is already through `float` (`0.0` on
absence or `ValueError`). -/
structure CAction where
  player : Option String
  type : Option String
  amount : ℚ
deriving DecidableEq, Repr

/-- One `<round>` element: its `no` attribute, the text of its
`type="Flop"` cards node when one exists (`some none` for an empty node),
and its actions. -/
structure CRound where
  no : ℕ
  flopText : Option (Option String)
  actions : List CAction
deriving DecidableEq, Repr

/-- One response dict appended to `current_event["responses"]`. -/
structure CResponse where
  player : String
  action_type : Option String
  response : String
  amount : ℚ
deriving DecidableEq, Repr

/-- The event dict built by the checkpoint walker (the `hand_number`
column passed through from the database row is outside the walker and
not modelled). -/
structure CEvent where
  player : String
  ratio : ℚ
  primary : String
  hole_cards : String
  flop_cards : String
  has_flush_draw : Bool
  has_oesd : Bool
  made_flush : Bool
  made_straight : Bool
  made_full_house : Bool
  in_position : Bool
  flop_players : ℕ
  responses : List CResponse
deriving DecidableEq, Repr

/-- The walker's per-hand mutable locals.  Python aliases the appended
event dict through `current_event`; here `finished_events` holds the
events no longer aliased and `current_event` the live one. -/
structure CbetSt where
  total_pot : ℚ
  last_aggressor : Option String
  cbet_logged : Bool
  flop_cards : Option (List PCard)
  flop_players_set : Finset String
  flop_actions : List (String × Option String)
  current_event : Option CEvent
  responders_recorded : Finset String
  flop_total_players : Option ℕ
  finished_events : List CEvent

/-- One token of the checkpoint `_parse_cards`: exactly two characters,
suit first (no upper-casing there, unlike `data/cards.py`). -/
def cvalidToken (p : List Char) : Option PCard :=
  match p with
  | [s, r] =>
      if s ∈ SUITS ∧ (CARD_RANKS r).isSome then
        some ⟨s, (CARD_RANKS r).getD 0, String.mk [s, r]⟩
      else none
  | _ => none

/-- The loop of `_parse_cards`: any malformed token returns the empty
list. -/
def cparseGo : List (List Char) → List PCard → List PCard
  | [], acc => acc.reverse
  | p :: rest, acc =>
      match cvalidToken p with
      | some c => cparseGo rest (c :: acc)
      | none => []

/-- Embeds the checkpoint `_parse_cards`. -/
def cparse (text : Option String) : List PCard :=
  match text with
  | none => []
  | some t => if t = "" then [] else cparseGo (splitWs t.toList) []

/-- `" ".join(card for _, _, card in cards)`. -/
def joinCards (cs : List PCard) : String := String.intercalate " " (cs.map PCard.tok)

/-- Python `round(x, 6)` (round half to even at the sixth decimal). -/
def round_half_even (x : ℚ) : ℤ :=
  let f := Rat.floor x
  let frac := x - f
  if frac < 1 / 2 then f
  else if (1 : ℚ) / 2 < frac then f + 1
  else if f % 2 = 0 then f else f + 1

/-- `round(x, 6)` as used on the ratio. -/
def round6 (x : ℚ) : ℚ := (round_half_even (x * 1000000) : ℚ) / 1000000

/-- The `response_kind` chain of the checkpoint (lines 318-326): fold and
check map to `Fold`, call to `Call`, raise and bet to `Raise`, anything
else (posts, unknown types, a missing attribute) to nothing. -/
def respKind (t : Option String) : Option String :=
  if Builder.optMem t FOLD_TYPES then some "Fold"
  else if Builder.optMem t CALL_TYPES then some "Call"
  else if Builder.optMem t RAISE_TYPES then some "Raise"
  else if Builder.optMem t BET_TYPES then some "Raise"
  else none

/-- Retiring the aliased `current_event` into the finished list. -/
def flushCur (st : CbetSt) : CbetSt :=
  match st.current_event with
  | some cur =>
      { st with finished_events := st.finished_events ++ [cur], current_event := none }
  | none => st

/-- The `round_no == 1` / `round_no == 2` dispatch of the action loop:
pre-flop aggressor tracking, flop bookkeeping and the c-bet event
creation (lines 281-311). -/
def agg_step (pocket : String → Option (List PCard)) (round_no : ℕ) (st : CbetSt)
    (player : String) (act_type : Option String) (amount : ℚ) : CbetSt :=
  if round_no = 1 ∧ Builder.optMem act_type RAISE_TYPES = true ∧ 0 < amount then
    { st with last_aggressor := some player }
  else if round_no = 2 then
    let prior := st.flop_actions
    let st' := { st with
        flop_actions := st.flop_actions ++ [(player, act_type)],
        flop_players_set := insert player st.flop_players_set }
    if !st'.cbet_logged &&
        (match st'.last_aggressor with
         | some ag => decide (ag ≠ "") && decide (player = ag)
         | none => false) &&
        Builder.optMem act_type AGG_TYPES && decide (0 < amount) then
      match st'.flop_cards, pocket player with
      | some fc, some hole =>
          if fc ≠ [] ∧ 0 < st'.total_pot then
            let cls := classify_hand hole fc
            let ev : CEvent :=
              { player := player
                ratio := round6 (amount / st'.total_pot)
                primary := cls.primary
                hole_cards := joinCards hole
                flop_cards := joinCards fc
                has_flush_draw := cls.flush_draw
                has_oesd := cls.oesd
                made_flush := cls.made_flush
                made_straight := cls.made_straight
                made_full_house := cls.made_full
                in_position := prior.any (fun pr => decide (some pr.1 ≠ st'.last_aggressor))
                flop_players :=
                  match st'.flop_total_players with
                  | some n => if n ≠ 0 then n else st'.flop_players_set.card
                  | none => st'.flop_players_set.card
                responses := [] }
            let stF := flushCur st'
            { stF with
                current_event := some ev
                responders_recorded := ∅
                cbet_logged := true }
          else { st' with cbet_logged := true }
      | _, _ => { st' with cbet_logged := true }
    else st'
  else st

/-- The response block (lines 312-337): on the flop, while an event is
live, a first mapped action of a non-bettor appends one response and
marks the responder. -/
def resp_step (round_no : ℕ) (st : CbetSt) (player : String) (act_type : Option String)
    (amount : ℚ) : CbetSt :=
  if round_no = 2 then
    match st.current_event with
    | some cur =>
        if player ≠ cur.player ∧ player ∉ st.responders_recorded then
          match respKind act_type with
          | some kind =>
              { st with
                  current_event := some
                    { cur with responses := cur.responses ++ [⟨player, act_type, kind, amount⟩] }
                  responders_recorded := insert player st.responders_recorded }
          | none => st
        else st
    | none => st
  else st

/-- One action of the checkpoint loop: the falsy-player `continue`, the
round dispatch, the response block, then the pot update. -/
def cbet_action (pocket : String → Option (List PCard)) (round_no : ℕ) (st : CbetSt)
    (a : CAction) : CbetSt :=
  match a.player with
  | none => st
  | some player =>
      if player = "" then st
      else
        let st1 := agg_step pocket round_no st player a.type a.amount
        let st2 := resp_step round_no st1 player a.type a.amount
        if 0 < a.amount then { st2 with total_pot := st2.total_pot + a.amount } else st2

/-- One `<round>`: the flop-cards and flop-player-count capture, the
action loop, and the `current_event = None` reset after non-flop
rounds. -/
def cbet_round (pocket : String → Option (List PCard)) (st : CbetSt) (rnd : CRound) :
    CbetSt :=
  let st0 :=
    if rnd.no = 2 ∧ st.flop_cards = none then
      match rnd.flopText with
      | some t => { st with flop_cards := some (cparse t) }
      | none => st
    else st
  let fp := ((rnd.actions.filterMap CAction.player).filter (fun p => p ≠ "")).toFinset.card
  let st1 :=
    if rnd.no = 2 ∧ st0.flop_total_players = none then
      { st0 with flop_total_players := some fp }
    else st0
  let st2 := rnd.actions.foldl (cbet_action pocket rnd.no) st1
  if rnd.no ≠ 2 then flushCur st2 else st2

/-- The walker's initial per-hand state. -/
def initCbet : CbetSt := ⟨0, none, false, none, ∅, [], none, ∅, none, []⟩

/-- The per-hand walk of `load_cbet_events` after the XML layer: rounds
sorted by number, folded through `cbet_round`, the still-live event
retired at the end (Python keeps it in `events` through the alias). -/
def load_cbet_events_hand (pocket : String → Option (List PCard))
    (rounds : List CRound) : List CEvent :=
  (flushCur ((sortedBy (fun r1 r2 => decide (r1.no ≤ r2.no)) rounds).foldl
    (cbet_round pocket) initCbet)).finished_events

/-- Claim-side helper: an opponent's first action in an action list. -/
def first_opp_action (opp : String) (actions : List CAction) : Option CAction :=
  actions.find? (fun a => a.player == some opp)

/-- The response shape the claim asserts of a finished event: opponents
respond at most once (distinct responder names), never the bettor
itself, and every recorded response carries the kind its action type
maps to. -/
def event_resp_ok (e : CEvent) : Prop :=
  (e.responses.map CResponse.player).Nodup ∧
  e.responses.all (fun r => decide (r.player ≠ e.player) &&
    (respKind r.action_type == some r.response)) = true

/-- The live event additionally has all its responders marked in
`responders_recorded`. -/
def cur_ok : Option CEvent → Finset String → Prop
  | none, _ => True
  | some cur, rec => event_resp_ok cur ∧ ∀ r ∈ cur.responses, r.player ∈ rec

/-- The walk invariant behind the response rule. -/
def st_ok (st : CbetSt) : Prop :=
  (∀ e ∈ st.finished_events, event_resp_ok e) ∧
  cur_ok st.current_event st.responders_recorded

/-- Concrete opponent actions after the c-bet: a post (type `1`), then a
fold (type `0`). -/
def cxAfterBet : List CAction := [⟨some "V", some "1", 1⟩, ⟨some "V", some "0", 0⟩]

/-- Concrete flop actions: the aggressor's c-bet followed by
`cxAfterBet`. -/
def cxFlopActions : List CAction := ⟨some "H", some "5", 2⟩ :: cxAfterBet

/-- A concrete two-round hand: pre-flop raise by `H`, then the flop. -/
def cxRounds : List CRound :=
  [⟨1, none, [⟨some "H", some "23", 1⟩]⟩, ⟨2, some (some "S2 D7 HJ"), cxFlopActions⟩]

/-- The pocket cards of the concrete hand. -/
def cxPocket : String → Option (List PCard) := fun p =>
  if p = "H" then some [⟨'S', 14, "SA"⟩, ⟨'H', 13, "HK"⟩] else none

/-- The single event the concrete hand produces. -/
def cxEvent0 : CEvent :=
  (load_cbet_events_hand cxPocket cxRounds).headD
    ⟨"", 0, "", "", "", false, false, false, false, false, false, 0, []⟩

/-- That event, spelled out. -/
def cxEventFull : CEvent :=
  ⟨"H", round6 (2 / 1), "Air", "SA HK", "S2 D7 HJ", false, false, false, false, false,
    false, 2, [⟨"V", some "0", "Fold", 0⟩]⟩

end Cbet

lemma insortStable_perm {α : Type} (le : α → α → Bool) (a : α) (l : List α) :
    (insortStable le a l).Perm (a :: l) := by
  induction l with
  | nil => rfl
  | cons b t ih =>
    unfold insortStable
    by_cases hab : le a b = true
    · rw [if_pos hab]
    · rw [if_neg hab]
      exact (ih.cons b).trans (List.Perm.swap a b t)

lemma sortedBy_perm {α : Type} (le : α → α → Bool) (l : List α) :
    (sortedBy le l).Perm l := by
  induction l with
  | nil => rfl
  | cons a t ih =>
    unfold sortedBy
    exact (insortStable_perm le a (sortedBy le t)).trans (ih.cons a)

lemma insortStable_pairwise {α : Type} (le : α → α → Bool)
    (htot : ∀ a b, le a b = true ∨ le b a = true)
    (htrans : ∀ a b c, le a b = true → le b c = true → le a c = true)
    (a : α) (l : List α) (hl : l.Pairwise (fun x y => le x y = true)) :
    (insortStable le a l).Pairwise (fun x y => le x y = true) := by
  induction l with
  | nil => simp [insortStable]
  | cons b t ih =>
    rw [List.pairwise_cons] at hl
    unfold insortStable
    by_cases hab : le a b = true
    · rw [if_pos hab]
      rw [List.pairwise_cons]
      constructor
      · intro x hx
        rcases List.mem_cons.mp hx with rfl | hxt
        · exact hab
        · exact htrans a b x hab (hl.1 x hxt)
      · rw [List.pairwise_cons]
        exact hl
    · rw [if_neg hab]
      rw [List.pairwise_cons]
      constructor
      · intro x hx
        have hx2 : x ∈ a :: t := (insortStable_perm le a t).mem_iff.mp hx
        rcases List.mem_cons.mp hx2 with rfl | hxt
        · rcases htot x b with h | h
          · exact absurd h hab
          · exact h
        · exact hl.1 x hxt
      · exact ih hl.2

lemma sortedBy_pairwise {α : Type} (le : α → α → Bool)
    (htot : ∀ a b, le a b = true ∨ le b a = true)
    (htrans : ∀ a b c, le a b = true → le b c = true → le a c = true)
    (l : List α) :
    (sortedBy le l).Pairwise (fun x y => le x y = true) := by
  induction l with
  | nil => exact List.Pairwise.nil
  | cons a t ih =>
    unfold sortedBy
    exact insortStable_pairwise le htot htrans a (sortedBy le t) ih

lemma containsQ_iff (b : BetSizeBucket) (r : ℚ) :
    b.containsQ r = true ↔ b.lower ≤ r ∧ ∀ u ∈ b.upper, r < u := by
  unfold BetSizeBucket.containsQ
  rcases b with ⟨k, lb, lo, up⟩
  cases up with
  | none =>
    split
    · rename_i h
      simp only [Bool.false_eq_true, false_iff, not_and]
      intro hle
      exact absurd hle (not_le.mpr h)
    · rename_i h
      simp only [decide_eq_true_eq]
      constructor
      · intro hle
        exact ⟨hle, by intro u hu; cases hu⟩
      · intro h2
        exact h2.1
  | some u =>
    split
    · rename_i h
      simp only [Bool.false_eq_true, false_iff, not_and]
      intro hle
      exact absurd hle (not_le.mpr h)
    · rename_i h
      simp only [decide_eq_true_eq]
      constructor
      · intro hlt
        refine ⟨le_of_not_lt h, ?_⟩
        intro v hv
        cases hv
        exact hlt
      · intro h2
        exact h2.2 u rfl

lemma find?_eq_of_mem_unique {α : Type} (l : List α) (p : α → Bool) (b : α)
    (hm : b ∈ l) (hp : p b = true) (hu : ∀ x ∈ l, p x = true → x = b) :
    l.find? p = some b := by
  induction l with
  | nil => cases hm
  | cons a t ih =>
    by_cases ha : p a = true
    · have hab : a = b := hu a (List.mem_cons_self a t) ha
      subst hab
      exact List.find?_cons_of_pos t ha
    · have hb : b ∈ t := by
        rcases List.mem_cons.mp hm with h | h
        · exact absurd (h ▸ hp) ha
        · exact h
      rw [List.find?_cons_of_neg t ha]
      exact ih hb (fun x hx hpx => hu x (List.mem_cons_of_mem a hx) hpx)

/-- Helper for several proofs: a non-negative ratio lands in a unique bucket
(exhaustiveness and exclusivity of the interval list). -/
lemma exists_unique_bucket (r : ℚ) (hr : 0 ≤ r) :
    ∃ b ∈ BET_SIZE_BUCKETS, b.containsQ r = true ∧
      ∀ b2 ∈ BET_SIZE_BUCKETS, b2.containsQ r = true → b2 = b := by
  rcases lt_or_le r 0.25 with h1 | h1
  · refine ⟨⟨"pct_0_25", "0-25%", 0, some 0.25⟩, by simp [BET_SIZE_BUCKETS], ?_, ?_⟩
    · rw [containsQ_iff]
      exact ⟨hr, by intro u hu; cases hu; exact h1⟩
    · intro b2 hb2 hc
      fin_cases hb2 <;> rw [containsQ_iff] at hc <;>
        first
        | rfl
        | (exfalso; obtain ⟨ha, hb⟩ := hc; try replace hb := hb _ rfl
           linarith)
  · rcases lt_or_le r 0.40 with h2 | h2
    · refine ⟨⟨"pct_25_40", "25-40%", 0.25, some 0.40⟩, by simp [BET_SIZE_BUCKETS], ?_, ?_⟩
      · rw [containsQ_iff]
        exact ⟨h1, by intro u hu; cases hu; exact h2⟩
      · intro b2 hb2 hc
        fin_cases hb2 <;> rw [containsQ_iff] at hc <;>
          first
          | rfl
          | (exfalso; obtain ⟨ha, hb⟩ := hc; try replace hb := hb _ rfl
             linarith)
    · rcases lt_or_le r 0.60 with h3 | h3
      · refine ⟨⟨"pct_40_60", "40-60%", 0.40, some 0.60⟩, by simp [BET_SIZE_BUCKETS], ?_, ?_⟩
        · rw [containsQ_iff]
          exact ⟨h2, by intro u hu; cases hu; exact h3⟩
        · intro b2 hb2 hc
          fin_cases hb2 <;> rw [containsQ_iff] at hc <;>
            first
            | rfl
            | (exfalso; obtain ⟨ha, hb⟩ := hc; try replace hb := hb _ rfl
               linarith)
      · rcases lt_or_le r 0.80 with h4 | h4
        · refine ⟨⟨"pct_60_80", "60-80%", 0.60, some 0.80⟩, by simp [BET_SIZE_BUCKETS], ?_, ?_⟩
          · rw [containsQ_iff]
            exact ⟨h3, by intro u hu; cases hu; exact h4⟩
          · intro b2 hb2 hc
            fin_cases hb2 <;> rw [containsQ_iff] at hc <;>
              first
              | rfl
              | (exfalso; obtain ⟨ha, hb⟩ := hc; try replace hb := hb _ rfl
                 linarith)
        · rcases lt_or_le r 1.00 with h5 | h5
          · refine ⟨⟨"pct_80_100", "80-100%", 0.80, some 1.00⟩, by simp [BET_SIZE_BUCKETS], ?_, ?_⟩
            · rw [containsQ_iff]
              exact ⟨h4, by intro u hu; cases hu; exact h5⟩
            · intro b2 hb2 hc
              fin_cases hb2 <;> rw [containsQ_iff] at hc <;>
                first
                | rfl
                | (exfalso; obtain ⟨ha, hb⟩ := hc; try replace hb := hb _ rfl
                   linarith)
          · rcases lt_or_le r 1.25 with h6 | h6
            · refine ⟨⟨"pct_100_125", "100-125%", 1.00, some 1.25⟩, by simp [BET_SIZE_BUCKETS], ?_, ?_⟩
              · rw [containsQ_iff]
                exact ⟨h5, by intro u hu; cases hu; exact h6⟩
              · intro b2 hb2 hc
                fin_cases hb2 <;> rw [containsQ_iff] at hc <;>
                  first
                  | rfl
                  | (exfalso; obtain ⟨ha, hb⟩ := hc; try replace hb := hb _ rfl
                     linarith)
            · rcases lt_or_le r 2.00 with h7 | h7
              · refine ⟨⟨"pct_125_200", "125-200%", 1.25, some 2.00⟩, by simp [BET_SIZE_BUCKETS], ?_, ?_⟩
                · rw [containsQ_iff]
                  exact ⟨h6, by intro u hu; cases hu; exact h7⟩
                · intro b2 hb2 hc
                  fin_cases hb2 <;> rw [containsQ_iff] at hc <;>
                    first
                    | rfl
                    | (exfalso; obtain ⟨ha, hb⟩ := hc; try replace hb := hb _ rfl
                       linarith)
              · rcases lt_or_le r 3.00 with h8 | h8
                · refine ⟨⟨"pct_200_300", "200-300%", 2.00, some 3.00⟩, by simp [BET_SIZE_BUCKETS], ?_, ?_⟩
                  · rw [containsQ_iff]
                    exact ⟨h7, by intro u hu; cases hu; exact h8⟩
                  · intro b2 hb2 hc
                    fin_cases hb2 <;> rw [containsQ_iff] at hc <;>
                      first
                      | rfl
                      | (exfalso; obtain ⟨ha, hb⟩ := hc; try replace hb := hb _ rfl
                         linarith)
                · refine ⟨⟨"pct_300_plus", "300%+", 3.00, none⟩, by simp [BET_SIZE_BUCKETS], ?_, ?_⟩
                  · rw [containsQ_iff]
                    exact ⟨h8, by intro u hu; cases hu⟩
                  · intro b2 hb2 hc
                    fin_cases hb2 <;> rw [containsQ_iff] at hc <;>
                      first
                      | rfl
                      | (exfalso; obtain ⟨ha, hb⟩ := hc; try replace hb := hb _ rfl
                         linarith)

/-- Helper: for a non-negative ratio the returned bucket is the unique
containing one. -/
lemma bucket_for_ratio_nonneg (r : ℚ) (hr : 0 ≤ r) :
    ∃ b, bucket_for_ratio (some r) = some b ∧ b ∈ BET_SIZE_BUCKETS ∧
      b.containsQ r = true ∧
      ∀ b2 ∈ BET_SIZE_BUCKETS, b2.containsQ r = true → b2 = b := by
  obtain ⟨b, hmem, hc, hu⟩ := exists_unique_bucket r hr
  refine ⟨b, ?_, hmem, hc, hu⟩
  simp only [bucket_for_ratio]
  rw [if_neg (not_lt.mpr hr), find?_eq_of_mem_unique BET_SIZE_BUCKETS _ b hmem hc hu]

/-- Claim C7: every ratio `r ≥ 0` lands in exactly one bucket of the fixed
interval list (mutually exclusive, collectively exhaustive), and
`bucket_for_ratio` returns exactly that bucket; negative or absent input
returns `none`. -/
theorem C7_bucket_ratio_partition :
    (∀ r : ℚ, 0 ≤ r →
      ∃ b, bucket_for_ratio (some r) = some b ∧ b ∈ BET_SIZE_BUCKETS ∧
        b.containsQ r = true ∧
        ∀ b2 ∈ BET_SIZE_BUCKETS, b2.containsQ r = true → b2 = b) ∧
    (∀ r : ℚ, r < 0 → bucket_for_ratio (some r) = none) ∧
    bucket_for_ratio none = none := by
  refine ⟨bucket_for_ratio_nonneg, ?_, rfl⟩
  intro r hr
  simp only [bucket_for_ratio]
  rw [if_pos hr]

/-- Witness for C7 at the concrete ratio 1/2: the 40-60% bucket. -/
theorem C7_bucket_ratio_partition_witness :
    ∃ b, bucket_for_ratio (some (1/2 : ℚ)) = some b ∧ b ∈ BET_SIZE_BUCKETS ∧
      b.containsQ (1/2 : ℚ) = true ∧
      ∀ b2 ∈ BET_SIZE_BUCKETS, b2.containsQ (1/2 : ℚ) = true → b2 = b :=
  C7_bucket_ratio_partition.1 (1/2 : ℚ) (by norm_num)

/-- Helper for C10: among the eight texture predicates, exactly one of the
three suit-count predicates holds on any 3-card flop. -/
lemma suit_texture_countP (cards : List Textures.Card) (h3 : cards.length = 3) :
    (Textures.FLOP_TEXTURE_SPECS.filter (fun spec => spec.predicate cards)).countP
      (fun spec => spec.key ∈ (["rainbow", "monotone", "two_tone"] : List String)) = 1 := by
  obtain ⟨a, b, c, rfl⟩ := List.length_eq_three.mp h3
  have hle : ({a.suit, b.suit, c.suit} : Finset Char).card ≤ 3 := by
    apply le_trans (Finset.card_insert_le _ _)
    have h2 := Finset.card_insert_le b.suit ({c.suit} : Finset Char)
    simp only [Finset.card_singleton] at h2 ⊢
    omega
  have hge : 1 ≤ ({a.suit, b.suit, c.suit} : Finset Char).card :=
    Finset.card_pos.mpr ⟨a.suit, by simp⟩
  rw [List.countP_filter]
  simp only [Textures.FLOP_TEXTURE_SPECS, List.countP_cons, List.countP_nil]
  simp only [List.mem_cons, List.mem_singleton, List.not_mem_nil, String.reduceEq,
    false_or, or_false, or_self, decide_eq_true_eq, Bool.and_eq_true, List.toFinset_cons,
    List.toFinset_nil, insert_emptyc_eq, List.map_cons, List.map_nil, false_and, and_false,
    if_false, true_and, and_true, List.length_cons, List.length_nil]
  have hcases : ({a.suit, b.suit, c.suit} : Finset Char).card = 1 ∨
      ({a.suit, b.suit, c.suit} : Finset Char).card = 2 ∨
      ({a.suit, b.suit, c.suit} : Finset Char).card = 3 := by omega
  rcases hcases with h | h | h <;> rw [h] <;> norm_num

/-- Claim C10: on every 3-card flop exactly one of the three suit-texture
predicates (Rainbow = three suits, Monotone = one suit, Two-tone = two
suits) holds, so `detect_textures` reports exactly one of those labels for
any flop text parsing to exactly three cards. -/
theorem C10_suit_texture_partition :
    (∀ cards : List Textures.Card, cards.length = 3 →
      (Textures.FLOP_TEXTURE_SPECS.filter (fun spec => spec.predicate cards)).countP
        (fun spec => spec.key ∈ (["rainbow", "monotone", "two_tone"] : List String)) = 1) ∧
    (∀ text : Option String, (Textures.parse_flop text).length = 3 →
      (Textures.detect_textures text).countP
        (fun spec => spec.key ∈ (["rainbow", "monotone", "two_tone"] : List String)) = 1) := by
  refine ⟨suit_texture_countP, ?_⟩
  intro text hlen
  unfold Textures.detect_textures
  rw [if_neg (by rw [hlen]; exact fun h => h rfl)]
  exact suit_texture_countP _ hlen

/-- Witness for C10 on the concrete two-tone flop As Kd Qs. -/
theorem C10_suit_texture_partition_witness :
    (Textures.FLOP_TEXTURE_SPECS.filter
        (fun spec => spec.predicate [⟨'A', 'S'⟩, ⟨'K', 'D'⟩, ⟨'Q', 'S'⟩])).countP
      (fun spec => spec.key ∈ (["rainbow", "monotone", "two_tone"] : List String)) = 1 :=
  C10_suit_texture_partition.1 [⟨'A', 'S'⟩, ⟨'K', 'D'⟩, ⟨'Q', 'S'⟩] rfl

lemma parseCardsGo_malformed (parts : List (List Char)) (acc : List (Char × ℕ × String))
    (h : ∃ p ∈ parts, validToken p = none) : parseCardsGo parts acc = [] := by
  induction parts generalizing acc with
  | nil => obtain ⟨p, hp, _⟩ := h; cases hp
  | cons q rest ih =>
    obtain ⟨p, hp, hbad⟩ := h
    rcases List.mem_cons.mp hp with rfl | hmem
    · simp only [parseCardsGo, hbad]
    · unfold parseCardsGo
      cases hq : validToken q with
      | none => rfl
      | some card => exact ih _ ⟨p, hmem, hbad⟩

/-- Claim C9 counterexample: `parse_flop` does NOT reject the whole input
when a token is malformed; on `"AS XX KD"` the malformed `"XX"` is silently
dropped and a partial two-card list of only the well-formed tokens is
returned, contradicting the fail-closed reading for this cited parser. -/
theorem C9_parse_flop_partial_counterexample :
    Textures.parse_token "XX" = none ∧
    Textures.parse_flop (some "AS XX KD") = [⟨'A', 'S'⟩, ⟨'K', 'D'⟩] ∧
    Textures.parse_flop (some "AS XX KD") ≠ [] := by
  refine ⟨rfl, rfl, ?_⟩
  decide

/-- Claim C9 (amended): `parse_cards_text` is fail closed — if any token of
the input is malformed the whole parse is the empty list, never a partial
list (whereas `parse_flop` in `textures.py` silently drops malformed
tokens, see the counterexample). -/
theorem C9_parse_cards_text_fail_closed (t : String)
    (h : ∃ p ∈ partsOf t, validToken p = none) :
    parse_cards_text (some t) = [] := by
  show (if t = "" then [] else parseCardsGo (partsOf t) []) = []
  by_cases he : t = ""
  · rw [if_pos he]
  · rw [if_neg he]
    exact parseCardsGo_malformed _ _ h

/-- Witness for C9: `"HK XX"` has the malformed token `"XX"` and parses to
the empty list even though `"HK"` alone would be well-formed. -/
theorem C9_parse_cards_text_fail_closed_witness :
    (∃ p ∈ partsOf "HK XX", validToken p = none) ∧
      parse_cards_text (some "HK XX") = [] ∧
      parse_cards_text (some "HK") ≠ [] := by
  have hbad : ∃ p ∈ partsOf "HK XX", validToken p = none := by
    refine ⟨['X', 'X'], ?_, rfl⟩
    decide
  exact ⟨hbad, C9_parse_cards_text_fail_closed "HK XX" hbad, by decide⟩

namespace Cbet

lemma counterValues_any {α : Type} [DecidableEq α] (l : List α) (p : ℕ → Bool) :
    (counterValues l).any p = true ↔ ∃ x ∈ l, p (l.count x) = true := by
  unfold counterValues
  rw [List.any_eq_true]
  constructor
  · rintro ⟨v, hv, hpv⟩
    obtain ⟨x, hx, rfl⟩ := List.mem_map.mp hv
    exact ⟨x, List.mem_dedup.mp hx, hpv⟩
  · rintro ⟨x, hx, hpx⟩
    exact ⟨l.count x, List.mem_map.mpr ⟨x, List.mem_dedup.mpr hx, rfl⟩, hpx⟩

lemma descSort_perm (l : List ℕ) : (descSort l).Perm l := sortedBy_perm _ l

lemma descSort_pairwise (l : List ℕ) :
    (descSort l).Pairwise (fun a b => b ≤ a) := by
  have h := sortedBy_pairwise (fun a b : ℕ => decide (b ≤ a))
    (fun a b => by
      rcases le_total b a with h | h
      · left; simpa using h
      · right; simpa using h)
    (fun a b c hab hbc => by
      simp only [decide_eq_true_eq] at hab hbc ⊢
      exact le_trans hbc hab)
    l
  refine h.imp ?_
  intro a b hab
  simpa using hab

lemma descSort_head_ge (l : List ℕ) (x : ℕ) (hx : x ∈ l) : x ≤ (descSort l).headD 0 := by
  have hmem : x ∈ descSort l := (descSort_perm l).mem_iff.mpr hx
  rcases hd : descSort l with _ | ⟨a, t⟩
  · rw [hd] at hmem; cases hmem
  · rw [hd] at hmem
    have hp := descSort_pairwise l
    rw [hd, List.pairwise_cons] at hp
    rcases List.mem_cons.mp hmem with rfl | hmt
    · simp
    · simpa using hp.1 x hmt


lemma two_distinct_mem_length {α : Type} [DecidableEq α] (l : List α) (hnd : l.Nodup)
    {a b : α} (hab : a ≠ b) (ha : a ∈ l) (hb : b ∈ l) : 2 ≤ l.length := by
  have hsub : ({a, b} : Finset α) ⊆ l.toFinset := by
    intro x hx
    rcases Finset.mem_insert.mp hx with rfl | hx
    · exact List.mem_toFinset.mpr ha
    · rw [Finset.mem_singleton] at hx
      subst hx
      exact List.mem_toFinset.mpr hb
  have hcard : ({a, b} : Finset α).card = 2 := Finset.card_pair hab
  calc 2 = ({a, b} : Finset α).card := hcard.symm
    _ ≤ l.toFinset.card := Finset.card_le_card hsub
    _ = l.length := List.toFinset_card_of_nodup hnd

lemma length_two_exists {α : Type} (l : List α) (h : 2 ≤ l.length) :
    ∃ a b t, l = a :: b :: t := by
  match l, h with
  | a :: b :: t, _ => exact ⟨a, b, t, rfl⟩

-- countP over counter values as filtered dedup length
lemma countP_counterValues {α : Type} [DecidableEq α] (l : List α) (p : ℕ → Bool) :
    (counterValues l).countP p = (l.dedup.filter (fun x => p (l.count x))).length := by
  unfold counterValues
  rw [List.countP_map, List.countP_eq_length_filter]
  rfl

-- two distinct elements with counts >= 2 from countP >= 2
lemma exists_two_of_countP (l : List ℕ) (p : ℕ → Bool)
    (h : 2 ≤ (counterValues l).countP p) :
    ∃ x y, x ≠ y ∧ x ∈ l ∧ y ∈ l ∧ p (l.count x) = true ∧ p (l.count y) = true := by
  rw [countP_counterValues] at h
  obtain ⟨a, b, t, hft⟩ := length_two_exists _ h
  have hnd : (l.dedup.filter (fun x => p (l.count x))).Nodup := (List.nodup_dedup l).filter _
  have hmem_a : a ∈ l.dedup.filter (fun x => p (l.count x)) := by rw [hft]; simp
  have hmem_b : b ∈ l.dedup.filter (fun x => p (l.count x)) := by rw [hft]; simp
  have hne : a ≠ b := by
    rw [hft] at hnd
    rcases List.nodup_cons.mp hnd with ⟨hna, _⟩
    intro hcon
    exact hna (hcon ▸ List.mem_cons_self b t)
  refine ⟨a, b, hne, ?_, ?_, ?_, ?_⟩
  · exact List.mem_dedup.mp (List.mem_of_mem_filter hmem_a)
  · exact List.mem_dedup.mp (List.mem_of_mem_filter hmem_b)
  · exact (List.mem_filter.mp hmem_a).2
  · exact (List.mem_filter.mp hmem_b).2

lemma countP_of_two (l : List ℕ) (p : ℕ → Bool) {x y : ℕ}
    (hxy : x ≠ y) (hx : x ∈ l) (hy : y ∈ l)
    (hpx : p (l.count x) = true) (hpy : p (l.count y) = true) :
    2 ≤ (counterValues l).countP p := by
  rw [countP_counterValues]
  have hnd : (l.dedup.filter (fun z => p (l.count z))).Nodup := (List.nodup_dedup l).filter _
  apply two_distinct_mem_length _ hnd hxy
  · exact List.mem_filter.mpr ⟨List.mem_dedup.mpr hx, hpx⟩
  · exact List.mem_filter.mpr ⟨List.mem_dedup.mpr hy, hpy⟩


lemma made_full_iff (hole board : List PCard) :
    made_full hole board = true ↔
      ∃ r1 r2, r1 ≠ r2 ∧ r1 ∈ ranksOf (combined hole board) ∧
        r2 ∈ ranksOf (combined hole board) ∧
        3 ≤ countR hole board r1 ∧ 2 ≤ countR hole board r2 := by
  unfold made_full counts_sorted countR
  simp only [Bool.and_eq_true, decide_eq_true_eq]
  constructor
  · rintro ⟨⟨hlen, hhead⟩, hsecond⟩
    set rs := ranksOf (combined hole board) with hrs
    set values := counterValues rs with hvalues
    obtain ⟨x, y, t, hxy⟩ := length_two_exists _ hlen
    have hx3 : 3 ≤ x := by rw [hxy] at hhead; simpa using hhead
    have hy2 : 2 ≤ y := by rw [hxy] at hsecond; simpa using hsecond
    have hxval : x ∈ values := by
      have : x ∈ descSort values := by rw [hxy]; exact List.mem_cons_self x _
      exact (descSort_perm values).mem_iff.mp this
    obtain ⟨r1, hr1d, hr1c⟩ := List.mem_map.mp hxval
    have hcountP : 2 ≤ values.countP (fun v => decide (2 ≤ v)) := by
      have hperm : (descSort values).countP (fun v => decide (2 ≤ v)) =
          values.countP (fun v => decide (2 ≤ v)) := (descSort_perm values).countP_eq _
      rw [← hperm, hxy]
      simp only [List.countP_cons]
      have h1 : (decide (2 ≤ x)) = true := by simp; omega
      have h2 : (decide (2 ≤ y)) = true := by simp; omega
      simp [h1, h2]
    obtain ⟨a, b, hab, hamem, hbmem, hpa, hpb⟩ := exists_two_of_countP rs _ hcountP
    simp only [decide_eq_true_eq] at hpa hpb
    have hr1mem : r1 ∈ rs := List.mem_dedup.mp hr1d
    by_cases hcase : r1 = a
    · subst hcase
      exact ⟨r1, b, hab, hr1mem, hbmem, by rw [hr1c]; exact hx3, hpb⟩
    · exact ⟨r1, a, hcase, hr1mem, hamem, by rw [hr1c]; exact hx3, hpa⟩
  · rintro ⟨r1, r2, h12, hm1, hm2, hc1, hc2⟩
    set rs := ranksOf (combined hole board) with hrs
    set values := counterValues rs with hvalues
    have hlendd : 2 ≤ rs.dedup.length :=
      two_distinct_mem_length _ (List.nodup_dedup rs) h12
        (List.mem_dedup.mpr hm1) (List.mem_dedup.mpr hm2)
    have hlenv : values.length = rs.dedup.length := by
      rw [hvalues]; unfold counterValues; rw [List.length_map]
    have hlen : 2 ≤ (descSort values).length := by
      rw [(descSort_perm values).length_eq, hlenv]
      exact hlendd
    have hr1v : rs.count r1 ∈ values := by
      rw [hvalues]; unfold counterValues
      exact List.mem_map.mpr ⟨r1, List.mem_dedup.mpr hm1, rfl⟩
    have hhead : 3 ≤ (descSort values).headD 0 :=
      le_trans hc1 (descSort_head_ge values _ hr1v)
    refine ⟨⟨hlen, hhead⟩, ?_⟩
    obtain ⟨x, y, t, hxy⟩ := length_two_exists _ hlen
    rw [hxy]
    simp only [List.get?]
    show 2 ≤ y
    by_contra hy
    push_neg at hy
    have hcountP : 2 ≤ values.countP (fun v => decide (2 ≤ v)) :=
      countP_of_two rs _ h12 hm1 hm2 (by simp; omega) (by simp; omega)
    have hperm : (descSort values).countP (fun v => decide (2 ≤ v)) =
        values.countP (fun v => decide (2 ≤ v)) := (descSort_perm values).countP_eq _
    have hpw := descSort_pairwise values
    rw [hxy, List.pairwise_cons] at hpw
    have hpw2 := List.pairwise_cons.mp hpw.2
    have hyt : ∀ v ∈ y :: t, ¬(decide (2 ≤ v) = true) := by
      intro v hv
      rcases List.mem_cons.mp hv with rfl | hvt
      · simp; omega
      · have hvy : v ≤ y := hpw2.1 v hvt
        simp; omega
    have hzero : (y :: t).countP (fun v => decide (2 ≤ v)) = 0 :=
      List.countP_eq_zero.mpr hyt
    rw [← hperm, hxy] at hcountP
    simp only [List.countP_cons, hzero] at hcountP
    split at hcountP <;> omega


lemma spec_full_iff (hole board : List PCard) :
    spec_full hole board = true ↔
      ∃ r1 r2, r1 ≠ r2 ∧ r1 ∈ ranksOf (combined hole board) ∧
        r2 ∈ ranksOf (combined hole board) ∧
        3 ≤ countR hole board r1 ∧ 2 ≤ countR hole board r2 := by
  unfold spec_full
  simp only [List.any_eq_true, Bool.and_eq_true, decide_eq_true_eq]
  constructor
  · rintro ⟨c1, hc1, c2, hc2, ⟨hne, h3⟩, h2⟩
    exact ⟨c1.rank, c2.rank, hne, List.mem_map.mpr ⟨c1, hc1, rfl⟩,
      List.mem_map.mpr ⟨c2, hc2, rfl⟩, h3, h2⟩
  · rintro ⟨r1, r2, hne, hm1, hm2, h3, h2⟩
    obtain ⟨c1, hc1, rfl⟩ := List.mem_map.mp hm1
    obtain ⟨c2, hc2, rfl⟩ := List.mem_map.mp hm2
    exact ⟨c1, hc1, c2, hc2, ⟨hne, h3⟩, h2⟩

lemma made_full_eq_spec (hole board : List PCard) :
    made_full hole board = spec_full hole board :=
  Bool.eq_iff_iff.mpr ((made_full_iff hole board).trans (spec_full_iff hole board).symm)

lemma made_four_eq_spec (hole board : List PCard) :
    made_four hole board = spec_quads hole board := by
  apply Bool.eq_iff_iff.mpr
  unfold made_four spec_quads countR
  rw [counterValues_any]
  simp only [List.any_eq_true, decide_eq_true_eq]
  constructor
  · rintro ⟨r, hr, h4⟩
    obtain ⟨c, hc, rfl⟩ := List.mem_map.mp hr
    exact ⟨c, hc, h4⟩
  · rintro ⟨c, hc, h4⟩
    exact ⟨c.rank, List.mem_map.mpr ⟨c, hc, rfl⟩, h4⟩

lemma trips_raw_eq_spec (hole board : List PCard) :
    (counterValues (ranksOf (combined hole board))).any (fun v => 3 ≤ v) =
      spec_trips hole board := by
  apply Bool.eq_iff_iff.mpr
  unfold spec_trips countR
  rw [counterValues_any]
  simp only [List.any_eq_true, decide_eq_true_eq]
  constructor
  · rintro ⟨r, hr, h3⟩
    obtain ⟨c, hc, rfl⟩ := List.mem_map.mp hr
    exact ⟨c, hc, h3⟩
  · rintro ⟨c, hc, h3⟩
    exact ⟨c.rank, List.mem_map.mpr ⟨c, hc, rfl⟩, h3⟩

lemma has_flush_eq_spec (hole board : List PCard) :
    has_flush (combined hole board) = spec_flush hole board := by
  apply Bool.eq_iff_iff.mpr
  unfold has_flush spec_flush
  rw [counterValues_any]
  simp only [List.any_eq_true, decide_eq_true_eq]
  constructor
  · rintro ⟨s, hs, h5⟩
    obtain ⟨c, hc, rfl⟩ := List.mem_map.mp hs
    exact ⟨c, hc, h5⟩
  · rintro ⟨c, hc, h5⟩
    exact ⟨c.suit, List.mem_map.mpr ⟨c, hc, rfl⟩, h5⟩

lemma two_pair_raw_eq_spec (hole board : List PCard) :
    decide (2 ≤ (counterValues (ranksOf (combined hole board))).countP (fun v => decide (2 ≤ v)))
      = spec_two_pair hole board := by
  apply Bool.eq_iff_iff.mpr
  unfold spec_two_pair countR
  simp only [List.any_eq_true, Bool.and_eq_true, decide_eq_true_eq]
  constructor
  · intro h
    obtain ⟨x, y, hxy, hx, hy, hpx, hpy⟩ := exists_two_of_countP _ _ h
    simp only [decide_eq_true_eq] at hpx hpy
    obtain ⟨c1, hc1, rfl⟩ := List.mem_map.mp hx
    obtain ⟨c2, hc2, rfl⟩ := List.mem_map.mp hy
    exact ⟨c1, hc1, c2, hc2, ⟨hxy, hpx⟩, hpy⟩
  · rintro ⟨c1, hc1, c2, hc2, ⟨hne, h21⟩, h22⟩
    exact countP_of_two _ _ hne (List.mem_map.mpr ⟨c1, hc1, rfl⟩)
      (List.mem_map.mpr ⟨c2, hc2, rfl⟩) (by simpa using h21) (by simpa using h22)

lemma straight_fst (hole board : List PCard) :
    (straight_info hole board).1 = spec_straight hole board := by
  show (if straight_rule (ranksOf (hole ++ board)) = true then ((true, false) : Bool × Bool)
    else (false, _)).1 = straight_rule (ranksOf (combined hole board))
  by_cases h : straight_rule (ranksOf (hole ++ board)) = true
  · rw [if_pos h]
    exact h.symm
  · rw [if_neg h]
    exact ((Bool.not_eq_true _).mp h).symm


lemma nth_board_zero_max (board : List PCard) (hb : board ≠ []) :
    ∃ m, nth_board board 0 = some m ∧ m ∈ ranksOf board ∧ ∀ r ∈ ranksOf board, r ≤ m := by
  have hrs : ranksOf board ≠ [] := by
    unfold ranksOf
    simpa using hb
  have hdd : (ranksOf board).dedup ≠ [] := by
    intro hcon
    rcases List.exists_mem_of_ne_nil _ hrs with ⟨r, hr⟩
    have : r ∈ (ranksOf board).dedup := List.mem_dedup.mpr hr
    rw [hcon] at this
    cases this
  have hlen : 0 < (board_unique board).length := by
    unfold board_unique descSort
    rw [(sortedBy_perm _ _).length_eq]
    exact List.length_pos.mpr hdd
  obtain ⟨m, t, hmt⟩ := List.exists_cons_of_ne_nil (List.length_pos.mp hlen)
  refine ⟨m, ?_, ?_, ?_⟩
  · unfold nth_board
    rw [hmt]
    rfl
  · have : m ∈ board_unique board := by rw [hmt]; exact List.mem_cons_self m t
    unfold board_unique at this
    exact List.mem_dedup.mp ((descSort_perm _).mem_iff.mp this)
  · intro r hr
    have hmem : r ∈ (ranksOf board).dedup := List.mem_dedup.mpr hr
    have := descSort_head_ge ((ranksOf board).dedup) r hmem
    unfold board_unique at hmt
    rw [hmt] at this
    exact this

lemma overpair_raw_eq_spec (hole board : List PCard) (hb : board ≠ []) :
    (hole_pair hole &&
      (match nth_board board 0 with
       | some m => decide (m < (ranksOf hole).headD 0)
       | none => false)) = spec_overpair hole board := by
  obtain ⟨m, hm0, hmmem, hmmax⟩ := nth_board_zero_max board hb
  unfold spec_overpair
  rw [hm0]
  apply Bool.eq_iff_iff.mpr
  simp only [Bool.and_eq_true, decide_eq_true_eq, List.all_eq_true]
  constructor
  · rintro ⟨hp, hlt⟩
    refine ⟨hp, ?_⟩
    intro c hc
    have : c.rank ∈ ranksOf board := List.mem_map.mpr ⟨c, hc, rfl⟩
    exact lt_of_le_of_lt (hmmax _ this) hlt
  · rintro ⟨hp, hall⟩
    refine ⟨hp, ?_⟩
    obtain ⟨c, hc, rfl⟩ := List.mem_map.mp hmmem
    simpa using hall c hc

lemma underpair_raw_eq_spec (hole board : List PCard) :
    (hole_pair hole &&
      (match nth_board board 0 with
       | some m => decide ((ranksOf hole).headD 0 < m)
       | none => false)) = spec_underpair hole board := rfl

end Cbet
open Cbet in
/-- Claim C2: for 2 hole cards and a 3-5 card board, `_classify_hand`
returns exactly the first matching category of the spec's priority order
(Full House, Quads, Flush, Straight, Trips/Set, Two Pair, Overpair, Top
Pair, Middle Pair, Bottom Pair, Underpair, Air); in particular a hand that
makes both a full house and a flush is reported as Full House, never
Flush. -/
theorem C2_classify_first_match (hole board : List Cbet.PCard)
    (hh : hole.length = 2) (hb3 : 3 ≤ board.length) (hb5 : board.length ≤ 5) :
    (Cbet.classify_hand hole board).primary = Cbet.spec_primary hole board ∧
    (Cbet.made_full hole board = true ∧ Cbet.has_flush (Cbet.combined hole board) = true →
      (Cbet.classify_hand hole board).primary = "Full House") := by
  refine ⟨?_, ?_⟩
  case refine_2 =>
    rintro ⟨hfull, _⟩
    simp [Cbet.classify_hand, hfull]
  have hbne : board ≠ [] := by
    intro hcon
    rw [hcon] at hb3
    simp at hb3
  have efull := made_full_eq_spec hole board
  have efour := made_four_eq_spec hole board
  have eflush := has_flush_eq_spec hole board
  have estraight := straight_fst hole board
  have etwo := two_pair_raw_eq_spec hole board
  have etrips := trips_raw_eq_spec hole board
  have eover := overpair_raw_eq_spec hole board hbne
  have eunder := underpair_raw_eq_spec hole board
  by_cases hF : spec_full hole board = true
  · have c1 : made_full hole board = true := by rw [efull]; exact hF
    simp [classify_hand, spec_primary, c1, hF]
  · replace hF : spec_full hole board = false := Bool.eq_false_iff.mpr hF
    have c1 : made_full hole board = false := by rw [efull]; exact hF
    by_cases hQ : spec_quads hole board = true
    · have c2 : made_four hole board = true := by rw [efour]; exact hQ
      simp [classify_hand, spec_primary, c1, c2, hF, hQ]
    · replace hQ : spec_quads hole board = false := Bool.eq_false_iff.mpr hQ
      have c2 : made_four hole board = false := by rw [efour]; exact hQ
      have c5eq : made_trips_only hole board = spec_trips hole board := by
        unfold made_trips_only
        rw [etrips, c1, c2]
        simp
      have c6eq : made_two_pair hole board = spec_two_pair hole board := by
        unfold made_two_pair
        rw [etwo, c1, c2]
        simp
      by_cases hFl : spec_flush hole board = true
      · have c3 : has_flush (combined hole board) = true := by rw [eflush]; exact hFl
        simp [classify_hand, spec_primary, c1, c2, c3, hF, hQ, hFl]
      · replace hFl : spec_flush hole board = false := Bool.eq_false_iff.mpr hFl
        have c3 : has_flush (combined hole board) = false := by rw [eflush]; exact hFl
        by_cases hS : spec_straight hole board = true
        · have c4 : (straight_info hole board).1 = true := by rw [estraight]; exact hS
          simp [classify_hand, spec_primary, c1, c2, c3, c4, hF, hQ, hFl, hS]
        · replace hS : spec_straight hole board = false := Bool.eq_false_iff.mpr hS
          have c4 : (straight_info hole board).1 = false := by rw [estraight]; exact hS
          by_cases hT : spec_trips hole board = true
          · have c5 : made_trips_only hole board = true := by rw [c5eq]; exact hT
            simp [classify_hand, spec_primary, c1, c2, c3, c4, c5, hF, hQ, hFl, hS, hT]
          · replace hT : spec_trips hole board = false := Bool.eq_false_iff.mpr hT
            have c5 : made_trips_only hole board = false := by rw [c5eq]; exact hT
            by_cases hP2 : spec_two_pair hole board = true
            · have c6 : made_two_pair hole board = true := by rw [c6eq]; exact hP2
              simp [classify_hand, spec_primary, c1, c2, c3, c4, c5, c6, hF, hQ, hFl, hS, hT, hP2]
            · replace hP2 : spec_two_pair hole board = false := Bool.eq_false_iff.mpr hP2
              have c6 : made_two_pair hole board = false := by rw [c6eq]; exact hP2
              have c7eq : overpair hole board = spec_overpair hole board := by
                unfold overpair
                rw [eover, c6, c1, c2]
                simp
              by_cases hO : spec_overpair hole board = true
              · have c7 : overpair hole board = true := by rw [c7eq]; exact hO
                simp [classify_hand, spec_primary, c1, c2, c3, c4, c5, c6, c7,
                  hF, hQ, hFl, hS, hT, hP2, hO]
              · replace hO : spec_overpair hole board = false := Bool.eq_false_iff.mpr hO
                have c7 : overpair hole board = false := by rw [c7eq]; exact hO
                have c8eq : top_pair hole board = spec_pair_with hole board 0 := by
                  unfold top_pair
                  rw [c1, c2, c5, c6, c7]
                  simp [spec_pair_with]
                by_cases hTp : spec_pair_with hole board 0 = true
                · have c8 : top_pair hole board = true := by rw [c8eq]; exact hTp
                  simp [classify_hand, spec_primary, c1, c2, c3, c4, c5, c6, c7, c8,
                    hF, hQ, hFl, hS, hT, hP2, hO, hTp]
                · replace hTp : spec_pair_with hole board 0 = false := Bool.eq_false_iff.mpr hTp
                  have c8 : top_pair hole board = false := by rw [c8eq]; exact hTp
                  have c9eq : middle_pair hole board = spec_pair_with hole board 1 := by
                    unfold middle_pair
                    rw [c1, c2, c5, c6, c7, c8]
                    simp [spec_pair_with]
                  by_cases hMp : spec_pair_with hole board 1 = true
                  · have c9 : middle_pair hole board = true := by rw [c9eq]; exact hMp
                    simp [classify_hand, spec_primary, c1, c2, c3, c4, c5, c6, c7, c8, c9,
                      hF, hQ, hFl, hS, hT, hP2, hO, hTp, hMp]
                  · replace hMp : spec_pair_with hole board 1 = false := Bool.eq_false_iff.mpr hMp
                    have c9 : middle_pair hole board = false := by rw [c9eq]; exact hMp
                    have c10eq : bottom_pair hole board = spec_pair_with hole board 2 := by
                      unfold bottom_pair
                      rw [c1, c2, c5, c6, c7, c8, c9]
                      simp [spec_pair_with]
                    by_cases hBp : spec_pair_with hole board 2 = true
                    · have c10 : bottom_pair hole board = true := by rw [c10eq]; exact hBp
                      simp [classify_hand, spec_primary, c1, c2, c3, c4, c5, c6, c7, c8, c9, c10,
                        hF, hQ, hFl, hS, hT, hP2, hO, hTp, hMp, hBp]
                    · replace hBp : spec_pair_with hole board 2 = false :=
                        Bool.eq_false_iff.mpr hBp
                      have c10 : bottom_pair hole board = false := by rw [c10eq]; exact hBp
                      have c11eq : underpair hole board = spec_underpair hole board := by
                        unfold underpair
                        rw [eunder, c1, c2, c5]
                        simp
                      by_cases hU : spec_underpair hole board = true
                      · have c11 : underpair hole board = true := by rw [c11eq]; exact hU
                        simp [classify_hand, spec_primary, c1, c2, c3, c4, c5, c6, c7, c8, c9,
                          c10, c11, hF, hQ, hFl, hS, hT, hP2, hO, hTp, hMp, hBp, hU]
                      · replace hU : spec_underpair hole board = false :=
                          Bool.eq_false_iff.mpr hU
                        have c11 : underpair hole board = false := by rw [c11eq]; exact hU
                        simp [classify_hand, spec_primary, c1, c2, c3, c4, c5, c6, c7, c8, c9,
                          c10, c11, hF, hQ, hFl, hS, hT, hP2, hO, hTp, hMp, hBp, hU]
namespace Cbet

lemma count_two_le_length {α : Type} [DecidableEq α] (l : List α) (a b : α) (hab : a ≠ b) :
    l.count a + l.count b ≤ l.length := by
  induction l with
  | nil => simp
  | cons c t ih =>
    simp only [List.count_cons, List.length_cons]
    by_cases hca : c = a <;> by_cases hcb : c = b
    · exact absurd (hca.symm.trans hcb) hab
    all_goals (simp [hca, hcb, hab, Ne.symm hab]; omega)

lemma suits_append (hole board : List PCard) :
    suitsOf hole ++ suitsOf board = suitsOf (combined hole board) := by
  simp [suitsOf, combined]

lemma classify_flush_draw_eq (hole board : List PCard) :
    (classify_hand hole board).flush_draw =
      (if has_flush (combined hole board) = true then false else has_flush_draw hole board) := rfl

lemma classify_made_flush_eq (hole board : List PCard) :
    (classify_hand hole board).made_flush = has_flush (combined hole board) := rfl

lemma has_flush_iff (cards : List PCard) :
    has_flush cards = true ↔ ∃ s ∈ suitsOf cards, 5 ≤ (suitsOf cards).count s := by
  unfold has_flush
  rw [counterValues_any]
  simp only [decide_eq_true_eq]

lemma has_flush_draw_iff (hole board : List PCard) :
    has_flush_draw hole board = true ↔
      ∃ s ∈ suitsOf (combined hole board),
        4 ≤ (suitsOf (combined hole board)).count s ∧ 0 < (suitsOf hole).count s := by
  unfold has_flush_draw counterKeys
  rw [List.any_eq_true]
  constructor
  · rintro ⟨s, hs, hcond⟩
    simp only [Bool.and_eq_true, decide_eq_true_eq] at hcond
    refine ⟨s, ?_, ?_, hcond.2⟩
    · rw [← suits_append]
      exact List.mem_dedup.mp hs
    · rw [← suits_append]
      exact hcond.1
  · rintro ⟨s, hs, h4, hpos⟩
    rw [← suits_append] at hs h4
    refine ⟨s, List.mem_dedup.mpr hs, ?_⟩
    simp only [Bool.and_eq_true, decide_eq_true_eq]
    exact ⟨h4, hpos⟩

end Cbet

open Cbet in
/-- Claim C8: for classifier inputs of 2 hole cards and at most 5 board
cards, the flush-draw flag is true exactly when some suit reaches exactly 4
cards in hole+board with at least one of them in the hole (the source tests
`>= 4`, but a fifth card of the suit would be a made flush, which
suppresses the flag); and a made flush always forces the flag off. -/
theorem C8_flush_draw_exactly_four (hole board : List Cbet.PCard)
    (hh : hole.length = 2) (hb5 : board.length ≤ 5) :
    ((Cbet.classify_hand hole board).flush_draw = true ↔
      ∃ c ∈ hole, (Cbet.suitsOf (Cbet.combined hole board)).count c.suit = 4) ∧
    ((Cbet.classify_hand hole board).made_flush = true →
      (Cbet.classify_hand hole board).flush_draw = false) := by
  have hlen : (suitsOf (combined hole board)).length = hole.length + board.length := by
    simp [suitsOf, combined]
  constructor
  · by_cases hmf : has_flush (combined hole board) = true
    · rw [classify_flush_draw_eq, if_pos hmf]
      simp only [Bool.false_eq_true, false_iff]
      rintro ⟨c, hc, hc4⟩
      obtain ⟨s5, hs5mem, hs55⟩ := (has_flush_iff _).mp hmf
      have hne : s5 ≠ c.suit := by
        intro h
        rw [h, hc4] at hs55
        omega
      have hsum := count_two_le_length (suitsOf (combined hole board)) s5 c.suit hne
      omega
    · rw [classify_flush_draw_eq, if_neg hmf]
      rw [has_flush_draw_iff]
      constructor
      · rintro ⟨s, hsmem, hs4, hshole⟩
        have hsin : s ∈ suitsOf hole := List.count_pos_iff.mp hshole
        obtain ⟨c, hc, rfl⟩ := List.mem_map.mp hsin
        refine ⟨c, hc, ?_⟩
        have hnot5 : ¬ 5 ≤ (suitsOf (combined hole board)).count c.suit := by
          intro h5
          exact hmf ((has_flush_iff _).mpr ⟨c.suit, hsmem, h5⟩)
        omega
      · rintro ⟨c, hc, hc4⟩
        have hsin : c.suit ∈ suitsOf hole := List.mem_map.mpr ⟨c, hc, rfl⟩
        refine ⟨c.suit, ?_, by omega, List.count_pos_iff.mpr hsin⟩
        rw [← suits_append]
        exact List.mem_append.mpr (Or.inl hsin)
  · intro hmf
    rw [classify_made_flush_eq] at hmf
    rw [classify_flush_draw_eq, if_pos hmf]

/-- Witness for C8: Ah Kh on Qh Jh 2c — four hearts, two in the hole. -/
theorem C8_flush_draw_exactly_four_witness :
    ((Cbet.classify_hand [⟨'H', 14, "HA"⟩, ⟨'H', 13, "HK"⟩]
        [⟨'H', 12, "HQ"⟩, ⟨'H', 11, "HJ"⟩, ⟨'C', 2, "C2"⟩]).flush_draw = true ↔
      ∃ c ∈ [Cbet.PCard.mk 'H' 14 "HA", Cbet.PCard.mk 'H' 13 "HK"],
        (Cbet.suitsOf (Cbet.combined [⟨'H', 14, "HA"⟩, ⟨'H', 13, "HK"⟩]
          [⟨'H', 12, "HQ"⟩, ⟨'H', 11, "HJ"⟩, ⟨'C', 2, "C2"⟩])).count c.suit = 4) ∧
    ((Cbet.classify_hand [⟨'H', 14, "HA"⟩, ⟨'H', 13, "HK"⟩]
        [⟨'H', 12, "HQ"⟩, ⟨'H', 11, "HJ"⟩, ⟨'C', 2, "C2"⟩]).made_flush = true →
      (Cbet.classify_hand [⟨'H', 14, "HA"⟩, ⟨'H', 13, "HK"⟩]
        [⟨'H', 12, "HQ"⟩, ⟨'H', 11, "HJ"⟩, ⟨'C', 2, "C2"⟩]).flush_draw = false) :=
  C8_flush_draw_exactly_four _ _ rfl (by norm_num)


namespace OppPerf

lemma dict_foldl_lookup (pairs : List (String × Player)) (m0 : String → Option String)
    (k : String) :
    (pairs.foldl (fun m pr => dictInsert m pr.2.name pr.1) m0) k =
      match pairs.reverse.find? (fun pr => decide (pr.2.name = k)) with
      | some pr => some pr.1
      | none => m0 k := by
  induction pairs generalizing m0 with
  | nil => rfl
  | cons p rest ih =>
    simp only [List.foldl_cons, List.reverse_cons, List.find?_append]
    rw [ih]
    cases hfind : rest.reverse.find? (fun pr => decide (pr.2.name = k)) with
    | some pr => simp [Option.or]
    | none =>
      simp only [Option.or]
      by_cases hk : p.2.name = k
      · simp [List.find?, hk, dictInsert]
      · have hkk : ¬(k = p.2.name) := fun h => hk h.symm
        simp [List.find?, hk, dictInsert, hkk]

lemma zipAssign_lookup (order : List String) (rotation : List Player) (k : String) :
    zipAssign order rotation k =
      match (order.zip rotation).reverse.find? (fun pr => decide (pr.2.name = k)) with
      | some pr => some pr.1
      | none => none :=
  dict_foldl_lookup _ _ _

lemma zipAssign_at (order : List String) (rotation : List Player)
    (hnd : (rotation.map Player.name).Nodup) (j : ℕ)
    (hjr : j < rotation.length) (hjo : j < order.length) :
    zipAssign order rotation (rotation[j].name) = some order[j] := by
  rw [zipAssign_lookup]
  have hjz : j < (order.zip rotation).length := by
    rw [List.length_zip]
    omega
  have hb : (order[j], rotation[j]) ∈ (order.zip rotation).reverse := by
    rw [List.mem_reverse]
    have := List.getElem_mem hjz
    rwa [List.getElem_zip] at this
  have hfind : (order.zip rotation).reverse.find?
      (fun pr => decide (pr.2.name = rotation[j].name)) = some (order[j], rotation[j]) := by
    apply find?_eq_of_mem_unique _ _ _ hb (by simp)
    intro x hx hpx
    rw [List.mem_reverse] at hx
    obtain ⟨⟨i, hi⟩, hget⟩ := List.get_of_mem hx
    have hio : i < order.length := by
      have := hi
      rw [List.length_zip] at this
      omega
    have hir : i < rotation.length := by
      have := hi
      rw [List.length_zip] at this
      omega
    have hx2 : x = (order[i], rotation[i]) := by
      rw [← hget]
      simp only [List.get_eq_getElem]
      exact List.getElem_zip
    subst hx2
    simp only [decide_eq_true_eq] at hpx
    have him : i < (rotation.map Player.name).length := by
      rw [List.length_map]
      exact hir
    have hjm : j < (rotation.map Player.name).length := by
      rw [List.length_map]
      exact hjr
    have hnames : (rotation.map Player.name)[i] = (rotation.map Player.name)[j] := by
      simp only [List.getElem_map]
      exact hpx
    have hij : i = j := (hnd.getElem_inj_iff).mp hnames
    subst hij
    rfl
  rw [hfind]

lemma zipAssign_not_mem (order : List String) (rotation : List Player) (k : String)
    (hk : ∀ pl ∈ rotation, pl.name ≠ k) :
    zipAssign order rotation k = none := by
  rw [zipAssign_lookup]
  have hfind : (order.zip rotation).reverse.find?
      (fun pr => decide (pr.2.name = k)) = none := by
    rw [List.find?_eq_none]
    intro x hx
    rw [List.mem_reverse] at hx
    have hmem := List.mem_zip hx
    simp only [decide_eq_true_eq]
    exact hk x.2 hmem.2
  rw [hfind]

lemma zipAssign_values (order : List String) (rotation : List Player) (k : String) :
    zipAssign order rotation k = none ∨
      ∃ lab ∈ order, zipAssign order rotation k = some lab := by
  rw [zipAssign_lookup]
  cases hf : (order.zip rotation).reverse.find? (fun pr => decide (pr.2.name = k)) with
  | none => exact Or.inl rfl
  | some pr =>
      right
      refine ⟨pr.1, ?_, rfl⟩
      have hmem : pr ∈ (order.zip rotation).reverse := List.mem_of_find?_eq_some hf
      rw [List.mem_reverse] at hmem
      exact (List.mem_zip hmem).1

lemma seatSorted_spec (players : List Player) (dealt : Finset String)
    (hnodup : (players.map Player.name).Nodup)
    (hsub : ∀ n ∈ dealt, ∃ p ∈ players, p.name = n) :
    ((seatSorted players dealt).map Player.name).Nodup ∧
    (seatSorted players dealt).length = dealt.card ∧
    (∀ p ∈ seatSorted players dealt, p.name ∈ dealt) ∧
    (∀ n ∈ dealt, ∃ p ∈ seatSorted players dealt, p.name = n) := by
  classical
  set filtered := players.filter (fun p => decide (p.name ∈ dealt)) with hfiltered
  have hperm : (seatSorted players dealt).Perm filtered := by
    unfold seatSorted
    exact sortedBy_perm _ _
  have hnamesf : filtered.map Player.name =
      (players.map Player.name).filter (fun n => decide (n ∈ dealt)) := by
    rw [hfiltered, List.map_filter]
    rfl
  have hnodupf : (filtered.map Player.name).Nodup := by
    rw [hnamesf]
    exact hnodup.filter _
  have hmemf : ∀ n, n ∈ filtered.map Player.name ↔ n ∈ players.map Player.name ∧ n ∈ dealt := by
    intro n
    rw [hnamesf, List.mem_filter]
    simp
  have hsetf : (filtered.map Player.name).toFinset = dealt := by
    ext n
    rw [List.mem_toFinset, hmemf]
    constructor
    · exact fun h => h.2
    · intro hn
      obtain ⟨p, hp, rfl⟩ := hsub n hn
      exact ⟨List.mem_map.mpr ⟨p, hp, rfl⟩, hn⟩
  have hlenf : filtered.length = dealt.card := by
    have := List.toFinset_card_of_nodup hnodupf
    rw [hsetf] at this
    rw [this, List.length_map]
  have hpermn : ((seatSorted players dealt).map Player.name).Perm (filtered.map Player.name) :=
    hperm.map _
  refine ⟨hpermn.nodup_iff.mpr hnodupf, ?_, ?_, ?_⟩
  · rw [hperm.length_eq, hlenf]
  · intro p hp
    have : p ∈ filtered := hperm.mem_iff.mp hp
    rw [hfiltered, List.mem_filter] at this
    simpa using this.2
  · intro n hn
    obtain ⟨p, hp, rfl⟩ := hsub n hn
    have hpf : p ∈ filtered := by
      rw [hfiltered, List.mem_filter]
      simp [hp, hn]
    exact ⟨p, hperm.mem_iff.mpr hpf, rfl⟩

lemma dealer_rotation_eq_rotate (ss : List Player) (count dealer_idx : ℕ)
    (hlen : ss.length = count) (hc : 0 < count) :
    dealer_rotation ss count dealer_idx = ss.rotate (dealer_idx + 1) := by
  apply List.ext_getElem
  · unfold dealer_rotation
    rw [List.length_map, List.length_range, List.length_rotate, hlen]
  · intro i h1 h2
    unfold dealer_rotation at h1 ⊢
    rw [List.length_map, List.length_range] at h1
    simp only [List.getElem_map, List.getElem_range, List.getElem_rotate]
    have hcast : ((dealer_idx : ℤ) - ((count : ℤ) - 1 - (i : ℤ))) =
        ((i + (dealer_idx + 1) : ℕ) : ℤ) + (count : ℤ) * (-1) := by
      push_cast
      ring
    have hidx : ((((dealer_idx : ℤ) - ((count : ℤ) - 1 - (i : ℤ))) % (ss.length : ℤ)).toNat) =
        (i + (dealer_idx + 1)) % ss.length := by
      rw [hlen, hcast, Int.add_mul_emod_self_left, ← Int.natCast_mod, Int.toNat_ofNat]
    rw [hidx]
    exact List.getD_eq_getElem ss dummyPlayer _

lemma fallback_rotation_eq_rotate (ss : List Player) (count start_index : ℕ)
    (hlen : ss.length = count) (hc : 0 < count) :
    fallback_rotation ss count start_index = ss.rotate start_index := by
  apply List.ext_getElem
  · unfold fallback_rotation
    rw [List.length_map, List.length_range, List.length_rotate, hlen]
  · intro i h1 h2
    unfold fallback_rotation at h1 ⊢
    rw [List.length_map, List.length_range] at h1
    simp only [List.getElem_map, List.getElem_range, List.getElem_rotate]
    have hidx : ((((start_index : ℤ) + (i : ℤ)) % (ss.length : ℤ)).toNat) =
        (i + start_index) % ss.length := by
      have hcast : ((start_index : ℤ) + (i : ℤ)) = ((i + start_index : ℕ) : ℤ) := by
        push_cast
        ring
      rw [hcast, ← Int.natCast_mod, Int.toNat_ofNat]
    rw [hidx]
    exact List.getD_eq_getElem ss dummyPlayer _

lemma pbc_spec (c : ℕ) (h3 : 3 ≤ c) (h9 : c ≤ 9) :
    ∃ order, POSITIONS_BY_COUNT c = some order ∧ order.length = c ∧
      "BTN" ∈ order ∧ order.getD (c - 1) "" = "BTN" := by
  interval_cases c <;> exact ⟨_, rfl, rfl, by decide, rfl⟩

lemma assign_unfold_dealer (players : List Player) (dealt : Finset String)
    (sb : Option String) (dn : String) (order : List String) (di : ℕ)
    (hguard : ¬(players = [] ∨ dealt = ∅))
    (hord : POSITIONS_BY_COUNT dealt.card = some order)
    (hordlen : order.length = dealt.card)
    (hdn : dn ∈ dealt) (hbtn : "BTN" ∈ order)
    (hfound : (seatSorted players dealt).findIdx? (fun p => decide (p.name = dn)) = some di) :
    assign_positions_from_seats players dealt sb (some dn) =
      zipAssign order (dealer_rotation (seatSorted players dealt) dealt.card di) := by
  unfold assign_positions_from_seats
  rw [if_neg hguard]
  split
  · rename_i heq
    rw [hord] at heq
    cases heq
  · rename_i order2 heq
    rw [hord] at heq
    injection heq with h
    subst h
    have hol : ¬(order.length ≠ dealt.card) := fun h => h hordlen
    rw [if_neg hol]
    have hdb : dealer_branch (seatSorted players dealt) dealt.card order dealt (some dn) =
        some (zipAssign order (dealer_rotation (seatSorted players dealt) dealt.card di)) := by
      show (if dn ∈ dealt ∧ "BTN" ∈ order then
          match (seatSorted players dealt).findIdx? (fun p => decide (p.name = dn)) with
          | some dealer_idx =>
              some (zipAssign order
                (dealer_rotation (seatSorted players dealt) dealt.card dealer_idx))
          | none => none
        else none) =
        some (zipAssign order (dealer_rotation (seatSorted players dealt) dealt.card di))
      rw [if_pos ⟨hdn, hbtn⟩, hfound]
    rw [hdb]

end OppPerf


namespace OppPerf

lemma assign_unfold_fallback (players : List Player) (dealt : Finset String)
    (sb dn_opt : Option String) (order : List String)
    (hguard : ¬(players = [] ∨ dealt = ∅))
    (hord : POSITIONS_BY_COUNT dealt.card = some order)
    (hordlen : order.length = dealt.card)
    (hnone : dealer_branch (seatSorted players dealt) dealt.card order dealt dn_opt = none) :
    assign_positions_from_seats players dealt sb dn_opt =
      fallback_branch (seatSorted players dealt) dealt.card order sb := by
  unfold assign_positions_from_seats
  rw [if_neg hguard]
  split
  · rename_i heq
    rw [hord] at heq
    cases heq
  · rename_i order2 heq
    rw [hord] at heq
    injection heq with h
    subst h
    have hol : ¬(order.length ≠ dealt.card) := fun h => h hordlen
    rw [if_neg hol, hnone]

lemma dealer_branch_heads_up (ss : List Player) (c : ℕ) (dealt : Finset String)
    (dn_opt : Option String) :
    dealer_branch ss c ["SB", "BB"] dealt dn_opt = none := by
  unfold dealer_branch
  cases dn_opt with
  | none => rfl
  | some dn =>
      show (if dn ∈ dealt ∧ "BTN" ∈ (["SB", "BB"] : List String) then
          match ss.findIdx? (fun p => decide (p.name = dn)) with
          | some dealer_idx => some (zipAssign ["SB", "BB"] (dealer_rotation ss c dealer_idx))
          | none => none
        else none) = none
      rw [if_neg]
      rintro ⟨_, hbtn⟩
      simp at hbtn

end OppPerf

open OppPerf in
/-- Claim C6 (amended): for every heads-up hand (exactly 2 dealt players
with unique names among the seated players), the opponent-performance seat
resolver assigns only SB and BB — every dealt player gets one of the two
and nobody is labeled BTN.  (`_position_labels` in the flop matrix builder
instead labels the heads-up button BTN, see the counterexample.) -/
theorem C6_heads_up_only_sb_bb (players : List OppPerf.Player) (dealt : Finset String)
    (sb dn_opt : Option String)
    (hnodup : (players.map OppPerf.Player.name).Nodup)
    (hsub : ∀ n ∈ dealt, ∃ p ∈ players, p.name = n)
    (h2 : dealt.card = 2) :
    (∀ n : String,
      OppPerf.assign_positions_from_seats players dealt sb dn_opt n = none ∨
      OppPerf.assign_positions_from_seats players dealt sb dn_opt n = some "SB" ∨
      OppPerf.assign_positions_from_seats players dealt sb dn_opt n = some "BB") ∧
    (∀ n ∈ dealt,
      (OppPerf.assign_positions_from_seats players dealt sb dn_opt n).isSome = true) := by
  obtain ⟨hndss, hlenss, hmemss, hcovss⟩ := seatSorted_spec players dealt hnodup hsub
  set ss := seatSorted players dealt with hss
  have hcpos : (0 : ℕ) < dealt.card := by omega
  have hne : dealt.Nonempty := Finset.card_pos.mp hcpos
  have hguard : ¬(players = [] ∨ dealt = ∅) := by
    rintro (hp | hd)
    · obtain ⟨n, hn⟩ := hne
      obtain ⟨p, hp2, _⟩ := hsub n hn
      rw [hp] at hp2
      cases hp2
    · rw [hd] at hne
      exact Finset.not_nonempty_empty hne
  have hord : POSITIONS_BY_COUNT dealt.card = some ["SB", "BB"] := by
    rw [h2]
    rfl
  have hordlen : (["SB", "BB"] : List String).length = dealt.card := by
    rw [h2]
    rfl
  have happ := assign_unfold_fallback players dealt sb dn_opt ["SB", "BB"] hguard hord hordlen
    (dealer_branch_heads_up ss dealt.card dealt dn_opt)
  obtain ⟨st, hfb⟩ : ∃ st, fallback_branch ss dealt.card ["SB", "BB"] sb =
      zipAssign ["SB", "BB"] (fallback_rotation ss dealt.card st) := ⟨_, rfl⟩
  have hlen2 : ss.length = dealt.card := hlenss
  have hrot : fallback_rotation ss dealt.card st = ss.rotate st :=
    fallback_rotation_eq_rotate ss dealt.card st hlen2 hcpos
  have hrotperm : (ss.rotate st).Perm ss := List.rotate_perm ss st
  have hrotnodup : ((ss.rotate st).map Player.name).Nodup :=
    ((hrotperm.map _).nodup_iff).mpr hndss
  have hrotlen : (ss.rotate st).length = dealt.card := by
    rw [List.length_rotate, hlen2]
  rw [happ, hfb, hrot]
  constructor
  · intro n
    rcases zipAssign_values ["SB", "BB"] (ss.rotate st) n with h | ⟨lab, hlab, h⟩
    · exact Or.inl h
    · right
      rcases List.mem_cons.mp hlab with rfl | hlab2
      · exact Or.inl h
      · rcases List.mem_cons.mp hlab2 with rfl | hlab3
        · exact Or.inr h
        · cases hlab3
  · intro n hn
    obtain ⟨p, hp, hpname⟩ := hcovss n hn
    have hprot : p ∈ ss.rotate st := hrotperm.mem_iff.mpr hp
    obtain ⟨⟨j, hj⟩, hget⟩ := List.get_of_mem hprot
    have hjo : j < (["SB", "BB"] : List String).length := by
      rw [hordlen]
      rw [hrotlen] at hj
      exact hj
    have hz := zipAssign_at ["SB", "BB"] (ss.rotate st) hrotnodup j hj hjo
    have hname : (ss.rotate st)[j].name = n := by
      rw [show (ss.rotate st)[j] = p from by rw [← hget]; simp, hpname]
    rw [hname] at hz
    rw [hz]
    rfl

/-- Witness for C6 on a concrete heads-up hand: seats 3 and 7, dealer
marker on seat 7, small blind posted by seat 3. -/
theorem C6_heads_up_only_sb_bb_witness :
    (∀ n : String,
      OppPerf.assign_positions_from_seats [⟨"X", 3⟩, ⟨"Y", 7⟩] ({"X", "Y"} : Finset String)
        (some "X") (some "Y") n = none ∨
      OppPerf.assign_positions_from_seats [⟨"X", 3⟩, ⟨"Y", 7⟩] ({"X", "Y"} : Finset String)
        (some "X") (some "Y") n = some "SB" ∨
      OppPerf.assign_positions_from_seats [⟨"X", 3⟩, ⟨"Y", 7⟩] ({"X", "Y"} : Finset String)
        (some "X") (some "Y") n = some "BB") ∧
    (∀ n ∈ ({"X", "Y"} : Finset String),
      (OppPerf.assign_positions_from_seats [⟨"X", 3⟩, ⟨"Y", 7⟩] ({"X", "Y"} : Finset String)
        (some "X") (some "Y") n).isSome = true) :=
  C6_heads_up_only_sb_bb [⟨"X", 3⟩, ⟨"Y", 7⟩] ({"X", "Y"} : Finset String)
    (some "X") (some "Y") (by decide) (by decide) (by decide)

/-- Claim C6 counterexample: `_position_labels` in
`flop_response_matrix_builder.py` labels the heads-up dealer BTN and the
other player SB — a heads-up player IS labeled BTN there, and no BB is
assigned at all. -/
theorem C6_position_labels_heads_up_counterexample :
    Builder.position_labels [⟨"A", 1, true⟩, ⟨"B", 2, false⟩] "A" = some "BTN" ∧
    Builder.position_labels [⟨"A", 1, true⟩, ⟨"B", 2, false⟩] "B" = some "SB" ∧
    (∀ n : String, Builder.position_labels [⟨"A", 1, true⟩, ⟨"B", 2, false⟩] n ≠ some "BB") := by
  refine ⟨rfl, rfl, ?_⟩
  intro n
  unfold Builder.position_labels
  rw [if_neg (by simp)]
  show (dictInsert (dictInsert dictEmpty "A" "BTN") "B" "SB") n ≠ some "BB"
  unfold dictInsert dictEmpty
  by_cases h1 : n = "B"
  · rw [if_pos h1]
    decide
  · rw [if_neg h1]
    by_cases h2 : n = "A"
    · rw [if_pos h2]
      decide
    · rw [if_neg h2]
      decide


open OppPerf in
/-- Claim C5 (amended): with a dealt dealer, unique player names, and a
dealt-player count in 3..9 (a count whose canonical template contains BTN),
the seat-rotation resolver assigns BTN to the dealer and some position to
every dealt player, regardless of blind posting (dead-blind hands
included).  Heads-up hands are the exception the counterexample shows: the
2-player template has no BTN; counts outside the table give no
assignments. -/
theorem C5_dead_blind_dealer_btn (players : List OppPerf.Player) (dealt : Finset String)
    (dn : String)
    (hnodup : (players.map OppPerf.Player.name).Nodup)
    (hsub : ∀ n ∈ dealt, ∃ p ∈ players, p.name = n)
    (hdn : dn ∈ dealt) (h3 : 3 ≤ dealt.card) (h9 : dealt.card ≤ 9) :
    (OppPerf.assign_positions_from_seats players dealt none (some dn)) dn = some "BTN" ∧
    ∀ n ∈ dealt,
      ((OppPerf.assign_positions_from_seats players dealt none (some dn)) n).isSome = true := by
  obtain ⟨hndss, hlenss, hmemss, hcovss⟩ := seatSorted_spec players dealt hnodup hsub
  set ss := seatSorted players dealt with hss
  obtain ⟨order, hord, hordlen, hbtn, hlast⟩ := pbc_spec dealt.card h3 h9
  have hguard : ¬(players = [] ∨ dealt = ∅) := by
    rintro (hp | hd)
    · obtain ⟨p, hp2, _⟩ := hsub dn hdn
      rw [hp] at hp2
      cases hp2
    · rw [hd] at hdn
      cases hdn
  obtain ⟨pd, hpd, hpdname⟩ := hcovss dn hdn
  have hex : ∃ p ∈ ss, (fun p => decide (p.name = dn)) p = true :=
    ⟨pd, hpd, by simp [hpdname]⟩
  have hdi_lt : ss.findIdx (fun p => decide (p.name = dn)) < ss.length :=
    List.findIdx_lt_length_of_exists hex
  set di := ss.findIdx (fun p => decide (p.name = dn)) with hdi
  have hfound : ss.findIdx? (fun p => decide (p.name = dn)) = some di :=
    List.findIdx?_eq_some_iff_findIdx_eq.mpr ⟨hdi_lt, rfl⟩
  have hdi_name : ss[di].name = dn := by
    have := @List.findIdx_getElem _ (fun p => decide (p.name = dn)) ss hdi_lt
    simpa using this
  have happ := assign_unfold_dealer players dealt none dn order di hguard hord hordlen
    hdn hbtn hfound
  have hcpos : 0 < dealt.card := by omega
  have hrot : dealer_rotation ss dealt.card di = ss.rotate (di + 1) :=
    dealer_rotation_eq_rotate ss dealt.card di hlenss hcpos
  have hrotperm : (ss.rotate (di + 1)).Perm ss := List.rotate_perm ss (di + 1)
  have hrotnodup : ((ss.rotate (di + 1)).map Player.name).Nodup :=
    ((hrotperm.map _).nodup_iff).mpr hndss
  have hrotlen : (ss.rotate (di + 1)).length = dealt.card := by
    rw [List.length_rotate, hlenss]
  rw [happ, hrot]
  have hlastidx : dealt.card - 1 < (ss.rotate (di + 1)).length := by omega
  have hlastord : dealt.card - 1 < order.length := by omega
  have hrotlast : (ss.rotate (di + 1))[dealt.card - 1] = ss[di] := by
    rw [List.getElem_rotate]
    congr 1
    rw [hlenss]
    have harith : dealt.card - 1 + (di + 1) = di + dealt.card := by omega
    rw [harith, Nat.add_mod_right]
    rw [hlenss] at hdi_lt
    exact Nat.mod_eq_of_lt hdi_lt
  constructor
  · have hz := zipAssign_at order (ss.rotate (di + 1)) hrotnodup (dealt.card - 1)
      hlastidx hlastord
    rw [hrotlast, hdi_name] at hz
    rw [hz]
    have hbtn2 : order[dealt.card - 1] = "BTN" := by
      rw [← List.getD_eq_getElem order "" hlastord, hlast]
    rw [hbtn2]
  · intro n hn
    obtain ⟨p, hp, hpname⟩ := hcovss n hn
    have hprot : p ∈ ss.rotate (di + 1) := hrotperm.mem_iff.mpr hp
    obtain ⟨⟨j, hj⟩, hget⟩ := List.get_of_mem hprot
    have hjo : j < order.length := by
      rw [hordlen]
      rw [hrotlen] at hj
      exact hj
    have hz := zipAssign_at order (ss.rotate (di + 1)) hrotnodup j hj hjo
    have hname : (ss.rotate (di + 1))[j].name = n := by
      rw [show (ss.rotate (di + 1))[j] = p from by rw [← hget]; simp, hpname]
    rw [hname] at hz
    rw [hz]
    rfl

/-- Witness for C5: three players, dealer C at seat 5, no small blind
posted: C gets BTN, everyone assigned. -/
theorem C5_dead_blind_dealer_btn_witness :
    (OppPerf.assign_positions_from_seats [⟨"A", 1⟩, ⟨"B", 2⟩, ⟨"C", 5⟩]
      ({"A", "B", "C"} : Finset String) none (some "C")) "C" = some "BTN" ∧
    ∀ n ∈ ({"A", "B", "C"} : Finset String),
      ((OppPerf.assign_positions_from_seats [⟨"A", 1⟩, ⟨"B", 2⟩, ⟨"C", 5⟩]
        ({"A", "B", "C"} : Finset String) none (some "C")) n).isSome = true :=
  C5_dead_blind_dealer_btn [⟨"A", 1⟩, ⟨"B", 2⟩, ⟨"C", 5⟩] ({"A", "B", "C"} : Finset String)
    "C" (by decide) (by decide) (by decide) (by decide) (by decide)

/-- Claim C5 counterexample: a dead-blind heads-up hand with a dealer
marker present.  The 2-player canonical template is `[SB, BB]`, so the
dealer gets SB and nobody gets BTN — the claim as stated fails. -/
theorem C5_heads_up_no_btn_counterexample :
    (OppPerf.assign_positions_from_seats [⟨"A", 1⟩, ⟨"B", 2⟩]
      ({"A", "B"} : Finset String) none (some "A")) "A" = some "SB" ∧
    (OppPerf.assign_positions_from_seats [⟨"A", 1⟩, ⟨"B", 2⟩]
      ({"A", "B"} : Finset String) none (some "A")) "A" ≠ some "BTN" ∧
    ∀ n ∈ ({"A", "B"} : Finset String),
      (OppPerf.assign_positions_from_seats [⟨"A", 1⟩, ⟨"B", 2⟩]
        ({"A", "B"} : Finset String) none (some "A")) n ≠ some "BTN" :=
  ⟨rfl, by decide, by decide⟩


namespace Builder

lemma preflop_go_fields (st : WalkSt) (actions : List BAction) :
    (preflop_go st actions).events = st.events ∧
    (preflop_go st actions).hero_event_recorded = st.hero_event_recorded ∧
    (preflop_go st actions).flop_player_count = st.flop_player_count ∧
    (preflop_go st actions).flop_active_snapshot = st.flop_active_snapshot ∧
    (preflop_go st actions).total_pot = st.total_pot + posValidSum actions := by
  induction actions generalizing st with
  | nil => simp [preflop_go, posValidSum]
  | cons a rest ih =>
    cases hp : a.player with
    | none =>
        simp only [preflop_go, hp]
        have := ih st
        simp only [this.1, this.2.1, this.2.2.1, this.2.2.2.1, this.2.2.2.2]
        simp [posValidSum, List.filter_cons, hp]
    | some player =>
        cases ht : a.type with
        | none =>
            simp only [preflop_go, hp, ht]
            have := ih st
            simp only [this.1, this.2.1, this.2.2.1, this.2.2.2.1, this.2.2.2.2]
            simp [posValidSum, List.filter_cons, hp, ht]
        | some act_type =>
            simp only [preflop_go, hp, ht]
            set st1 := if 0 < a.amount then { st with total_pot := st.total_pot + a.amount } else st with hst1
            set st2 := if act_type ∈ FOLD_TYPES then
                { st1 with active_players := st1.active_players.erase player }
              else if act_type ∉ CHECK_TYPES then
                { st1 with active_players := insert player st1.active_players }
              else st1 with hst2
            set st3 := if act_type ∈ RAISE_TYPES ∧ 0 < a.amount then
                { st2 with preflop_aggressor := some player }
              else st2 with hst3
            have h1 : st1.events = st.events ∧ st1.hero_event_recorded = st.hero_event_recorded ∧
                st1.flop_player_count = st.flop_player_count ∧
                st1.flop_active_snapshot = st.flop_active_snapshot ∧
                st1.total_pot = st.total_pot + (if 0 < a.amount then a.amount else 0) := by
              rw [hst1]
              split <;> simp
            have h2 : st2.events = st1.events ∧ st2.hero_event_recorded = st1.hero_event_recorded ∧
                st2.flop_player_count = st1.flop_player_count ∧
                st2.flop_active_snapshot = st1.flop_active_snapshot ∧
                st2.total_pot = st1.total_pot := by
              rw [hst2]
              split
              · simp
              · split <;> simp
            have h3 : st3.events = st2.events ∧ st3.hero_event_recorded = st2.hero_event_recorded ∧
                st3.flop_player_count = st2.flop_player_count ∧
                st3.flop_active_snapshot = st2.flop_active_snapshot ∧
                st3.total_pot = st2.total_pot := by
              rw [hst3]
              split <;> simp
            have := ih st3
            refine ⟨?_, ?_, ?_, ?_, ?_⟩
            · rw [this.1, h3.1, h2.1, h1.1]
            · rw [this.2.1, h3.2.1, h2.2.1, h1.2.1]
            · rw [this.2.2.1, h3.2.2.1, h2.2.2.1, h1.2.2.1]
            · rw [this.2.2.2.1, h3.2.2.2.1, h2.2.2.2.1, h1.2.2.2.1]
            · rw [this.2.2.2.2, h3.2.2.2.2, h2.2.2.2.2, h1.2.2.2.2]
              have : posValidSum (a :: rest) =
                  (if 0 < a.amount then a.amount else 0) + posValidSum rest := by
                unfold posValidSum
                rw [List.filter_cons]
                by_cases hamt : 0 < a.amount
                · rw [if_pos (by simp [hp, ht, hamt])]
                  simp [hamt]
                · rw [if_neg (by simp [hp, ht, hamt])]
                  simp [hamt]
              rw [this]
              ring

end Builder

namespace Builder

lemma other_go_fields (st : WalkSt) (actions : List BAction) :
    (other_go st actions).events = st.events ∧
    (other_go st actions).hero_event_recorded = st.hero_event_recorded ∧
    (other_go st actions).flop_player_count = st.flop_player_count ∧
    (other_go st actions).flop_active_snapshot = st.flop_active_snapshot ∧
    (other_go st actions).total_pot = st.total_pot + posSum actions := by
  induction actions generalizing st with
  | nil => simp [other_go, posSum]
  | cons a rest ih =>
    simp only [other_go]
    set st1 := if 0 < a.amount then { st with total_pot := st.total_pot + a.amount } else st
      with hst1
    set st2 := match a.player with
      | some p =>
          if optMem a.type FOLD_TYPES then
            { st1 with active_players := st1.active_players.erase p }
          else st1
      | none => st1 with hst2
    have h1 : st1.events = st.events ∧ st1.hero_event_recorded = st.hero_event_recorded ∧
        st1.flop_player_count = st.flop_player_count ∧
        st1.flop_active_snapshot = st.flop_active_snapshot ∧
        st1.total_pot = st.total_pot + (if 0 < a.amount then a.amount else 0) := by
      rw [hst1]
      split <;> simp
    have h2 : st2.events = st1.events ∧ st2.hero_event_recorded = st1.hero_event_recorded ∧
        st2.flop_player_count = st1.flop_player_count ∧
        st2.flop_active_snapshot = st1.flop_active_snapshot ∧
        st2.total_pot = st1.total_pot := by
      rw [hst2]
      cases a.player with
      | none => simp
      | some p =>
          simp only
          split <;> simp
    have h3 : posSum (a :: rest) = (if 0 < a.amount then a.amount else 0) + posSum rest := by
      unfold posSum
      rw [List.filter_cons]
      by_cases hamt : 0 < a.amount
      · rw [if_pos (by simp [hamt])]
        simp [hamt]
      · rw [if_neg (by simp [hamt])]
        simp [hamt]
    have := ih st2
    refine ⟨?_, ?_, ?_, ?_, ?_⟩
    · rw [this.1, h2.1, h1.1]
    · rw [this.2.1, h2.2.1, h1.2.1]
    · rw [this.2.2.1, h2.2.2.1, h1.2.2.1]
    · rw [this.2.2.2.1, h2.2.2.2.1, h1.2.2.2.1]
    · rw [this.2.2.2.2, h2.2.2.2.2, h1.2.2.2.2, h3]
      ring

end Builder

namespace Builder

lemma flop_step_pot (ctx : HandCtx) (st : WalkSt) (acted : Finset String) (bs : Bool)
    (player act_type : String) (amount : ℚ) (rest : List BAction) :
    ((flop_step ctx st acted bs player act_type amount rest).1).total_pot =
      st.total_pot + (if 0 < amount then amount else 0) := by
  cases hemit : flop_emit ctx st acted bs player act_type amount rest with
  | none => simp only [flop_step, hemit]; split_ifs <;> simp
  | some e => simp only [flop_step, hemit]; split_ifs <;> simp

lemma flop_step_fpc (ctx : HandCtx) (st : WalkSt) (acted : Finset String) (bs : Bool)
    (player act_type : String) (amount : ℚ) (rest : List BAction) :
    ((flop_step ctx st acted bs player act_type amount rest).1).flop_player_count =
      st.flop_player_count ∧
    ((flop_step ctx st acted bs player act_type amount rest).1).flop_active_snapshot =
      st.flop_active_snapshot := by
  cases hemit : flop_emit ctx st acted bs player act_type amount rest with
  | none => constructor <;> (simp only [flop_step, hemit]; split_ifs <;> simp)
  | some e => constructor <;> (simp only [flop_step, hemit]; split_ifs <;> simp)

lemma flop_step_bs (ctx : HandCtx) (st : WalkSt) (acted : Finset String) (bs : Bool)
    (player act_type : String) (amount : ℚ) (rest : List BAction) :
    (flop_step ctx st acted bs player act_type amount rest).2 =
      (bs || (decide ((act_type ∈ BET_TYPES ∨ act_type ∈ RAISE_TYPES) ∧ 0 < amount))) := by
  cases hemit : flop_emit ctx st acted bs player act_type amount rest with
  | none => simp only [flop_step, hemit]
  | some e => simp only [flop_step, hemit]

lemma flop_step_events (ctx : HandCtx) (st : WalkSt) (acted : Finset String) (bs : Bool)
    (player act_type : String) (amount : ℚ) (rest : List BAction) :
    ((flop_step ctx st acted bs player act_type amount rest).1).events =
      (match flop_emit ctx st acted bs player act_type amount rest with
       | some e => st.events ++ [e]
       | none => st.events) ∧
    ((flop_step ctx st acted bs player act_type amount rest).1).hero_event_recorded =
      (match flop_emit ctx st acted bs player act_type amount rest with
       | some _ => true
       | none => st.hero_event_recorded) := by
  cases hemit : flop_emit ctx st acted bs player act_type amount rest with
  | none => constructor <;> (simp only [flop_step, hemit]; split_ifs <;> simp)
  | some e => constructor <;> (simp only [flop_step, hemit]; split_ifs <;> simp)

end Builder

namespace Builder

lemma flop_emit_none_of_recorded (ctx : HandCtx) (st : WalkSt) (acted : Finset String)
    (bs : Bool) (player act_type : String) (amount : ℚ) (rest : List BAction)
    (hrec : st.hero_event_recorded = true) :
    flop_emit ctx st acted bs player act_type amount rest = none := by
  unfold flop_emit
  rw [if_neg]
  simp [hrec]

lemma flop_emit_none_of_bs (ctx : HandCtx) (st : WalkSt) (acted : Finset String)
    (player act_type : String) (amount : ℚ) (rest : List BAction) :
    flop_emit ctx st acted true player act_type amount rest = none := by
  unfold flop_emit
  rw [if_neg]
  simp

lemma flop_emit_none_of_notq (ctx : HandCtx) (st : WalkSt) (acted : Finset String)
    (bs : Bool) (player act_type : String) (amount : ℚ) (rest : List BAction)
    (hnq : ¬(player = ctx.hero ∧ act_type ∈ BET_TYPES ∧ 0 < amount ∧ bs = false)) :
    flop_emit ctx st acted bs player act_type amount rest = none := by
  unfold flop_emit
  rw [if_neg]
  intro hcon
  simp only [Bool.and_eq_true, decide_eq_true_eq, Bool.not_eq_eq_eq_not, Bool.not_true] at hcon
  apply hnq
  refine ⟨hcon.1.1.1.1.1.1.2, hcon.1.1.1.1.1.2, hcon.1.1.1.1.2, ?_⟩
  have := hcon.1.1.1.2
  revert this
  cases bs <;> simp

lemma flop_emit_some_of_q (ctx : HandCtx) (st : WalkSt) (acted : Finset String)
    (bs : Bool) (player act_type : String) (amount : ℚ) (rest : List BAction)
    (n : ℕ) (snap : Finset String)
    (hrec : st.hero_event_recorded = false)
    (hcnt : st.flop_player_count = some n) (h2n : 2 ≤ n)
    (hsnap : st.flop_active_snapshot = some snap) (hne : snap.Nonempty)
    (hq : player = ctx.hero ∧ act_type ∈ BET_TYPES ∧ 0 < amount ∧ bs = false) :
    (0 < st.total_pot →
      ∃ e, flop_emit ctx st acted bs player act_type amount rest = some e ∧
        e.ratio = amount / st.total_pot) ∧
    (¬(0 < st.total_pot) →
      flop_emit ctx st acted bs player act_type amount rest = none) := by
  obtain ⟨hq1, hq2, hq3, hq4⟩ := hq
  have hcond : (!st.hero_event_recorded && decide (player = ctx.hero) &&
      decide (act_type ∈ BET_TYPES) && decide (0 < amount) && !bs &&
      (match st.flop_player_count with
       | some n => decide (n ≠ 0)
       | none => false) &&
      (match st.flop_player_count with
       | some n => decide (2 ≤ n)
       | none => false) &&
      (match st.flop_active_snapshot with
       | some s => decide s.Nonempty
       | none => false)) = true := by
    rw [hrec, hcnt, hsnap, hq4]
    simp [hq1, hq2, hq3, hne, h2n, show n ≠ 0 from by omega]
  constructor
  · intro hpot
    have hr0 : 0 ≤ amount / st.total_pot := by positivity
    obtain ⟨b, hb, _, _, _⟩ := bucket_for_ratio_nonneg (amount / st.total_pot) hr0
    unfold flop_emit
    rw [if_pos hcond]
    simp only [if_pos hpot, hb]
    exact ⟨_, rfl, rfl⟩
  · intro hpot
    unfold flop_emit
    rw [if_pos hcond]
    simp only [if_neg hpot]
    rw [show bucket_for_ratio none = none from rfl]

end Builder

namespace Builder

lemma flop_go_pot (ctx : HandCtx) (actions : List BAction) :
    ∀ (st : WalkSt) (acted : Finset String) (bs : Bool),
    (flop_go ctx st acted bs actions).total_pot = st.total_pot + posValidSum actions ∧
    (flop_go ctx st acted bs actions).flop_player_count = st.flop_player_count ∧
    (flop_go ctx st acted bs actions).flop_active_snapshot = st.flop_active_snapshot := by
  induction actions with
  | nil => intro st acted bs; simp [flop_go, posValidSum]
  | cons a rest ih =>
    intro st acted bs
    have hsum : ∀ keep : Bool, posValidSum (a :: rest) =
        (if keep = true ∧ 0 < a.amount then a.amount else 0) + posValidSum rest →
        True := fun _ _ => trivial
    cases hp : a.player with
    | none =>
        simp only [flop_go, hp]
        have := ih st acted bs
        refine ⟨?_, this.2.1, this.2.2⟩
        rw [this.1]
        simp [posValidSum, List.filter_cons, hp]
    | some player =>
        cases ht : a.type with
        | none =>
            simp only [flop_go, hp, ht]
            have := ih st acted bs
            refine ⟨?_, this.2.1, this.2.2⟩
            rw [this.1]
            simp [posValidSum, List.filter_cons, hp, ht]
        | some act_type =>
            simp only [flop_go, hp, ht]
            have hstep := flop_step_pot ctx st acted bs player act_type a.amount rest
            have hfpc := flop_step_fpc ctx st acted bs player act_type a.amount rest
            have := ih (flop_step ctx st acted bs player act_type a.amount rest).1
              (insert player acted) (flop_step ctx st acted bs player act_type a.amount rest).2
            refine ⟨?_, ?_, ?_⟩
            · rw [this.1, hstep]
              have : posValidSum (a :: rest) =
                  (if 0 < a.amount then a.amount else 0) + posValidSum rest := by
                unfold posValidSum
                rw [List.filter_cons]
                by_cases hamt : 0 < a.amount
                · rw [if_pos (by simp [hp, ht, hamt])]
                  simp [hamt]
                · rw [if_neg (by simp [hp, ht, hamt])]
                  simp [hamt]
              rw [this]
              ring
            · rw [this.2.1, hfpc.1]
            · rw [this.2.2, hfpc.2]

lemma flop_go_recorded (ctx : HandCtx) (actions : List BAction) :
    ∀ (st : WalkSt) (acted : Finset String) (bs : Bool),
    st.hero_event_recorded = true →
    (flop_go ctx st acted bs actions).events = st.events ∧
    (flop_go ctx st acted bs actions).hero_event_recorded = true := by
  induction actions with
  | nil => intro st acted bs hrec; exact ⟨rfl, hrec⟩
  | cons a rest ih =>
    intro st acted bs hrec
    cases hp : a.player with
    | none => simp only [flop_go, hp]; exact ih st acted bs hrec
    | some player =>
        cases ht : a.type with
        | none => simp only [flop_go, hp, ht]; exact ih st acted bs hrec
        | some act_type =>
            simp only [flop_go, hp, ht]
            have hemit := flop_emit_none_of_recorded ctx st acted bs player act_type a.amount
              rest hrec
            have hev := flop_step_events ctx st acted bs player act_type a.amount rest
            rw [hemit] at hev
            have := ih (flop_step ctx st acted bs player act_type a.amount rest).1
              (insert player acted) (flop_step ctx st acted bs player act_type a.amount rest).2
              (by rw [hev.2, hrec])
            exact ⟨by rw [this.1, hev.1], this.2⟩

lemma flop_go_bet_seen (ctx : HandCtx) (actions : List BAction) :
    ∀ (st : WalkSt) (acted : Finset String),
    (flop_go ctx st acted true actions).events = st.events ∧
    (flop_go ctx st acted true actions).hero_event_recorded = st.hero_event_recorded := by
  induction actions with
  | nil => intro st acted; exact ⟨rfl, rfl⟩
  | cons a rest ih =>
    intro st acted
    cases hp : a.player with
    | none => simp only [flop_go, hp]; exact ih st acted
    | some player =>
        cases ht : a.type with
        | none => simp only [flop_go, hp, ht]; exact ih st acted
        | some act_type =>
            simp only [flop_go, hp, ht]
            have hemit := flop_emit_none_of_bs ctx st acted player act_type a.amount rest
            have hev := flop_step_events ctx st acted true player act_type a.amount rest
            rw [hemit] at hev
            have hbs := flop_step_bs ctx st acted true player act_type a.amount rest
            rw [show (true || (decide ((act_type ∈ BET_TYPES ∨ act_type ∈ RAISE_TYPES) ∧
              0 < a.amount))) = true from by simp] at hbs
            rw [hbs]
            have := ih (flop_step ctx st acted true player act_type a.amount rest).1
              (insert player acted)
            exact ⟨by rw [this.1, hev.1], by rw [this.2, hev.2]⟩

lemma flop_go_correspondence (ctx : HandCtx) (actions : List BAction) :
    ∀ (st : WalkSt) (acted : Finset String) (bs : Bool) (n : ℕ) (snap : Finset String),
    st.hero_event_recorded = false →
    st.flop_player_count = some n → 2 ≤ n →
    st.flop_active_snapshot = some snap → snap.Nonempty →
    (spec_flop_event BET_TYPES ctx.hero st.total_pot bs actions = none ∧
      (flop_go ctx st acted bs actions).events = st.events) ∨
    (∃ pb amt e, spec_flop_event BET_TYPES ctx.hero st.total_pot bs actions = some (pb, amt) ∧
      0 < pb ∧ (flop_go ctx st acted bs actions).events = st.events ++ [e] ∧
      e.ratio = amt / pb) := by
  induction actions with
  | nil =>
    intro st acted bs n snap hrec hcnt h2n hsnap hne
    exact Or.inl ⟨rfl, rfl⟩
  | cons a rest ih =>
    intro st acted bs n snap hrec hcnt h2n hsnap hne
    cases hp : a.player with
    | none =>
        simp only [flop_go, spec_flop_event, hp]
        exact ih st acted bs n snap hrec hcnt h2n hsnap hne
    | some player =>
        cases ht : a.type with
        | none =>
            simp only [flop_go, spec_flop_event, hp, ht]
            exact ih st acted bs n snap hrec hcnt h2n hsnap hne
        | some act_type =>
            simp only [flop_go, spec_flop_event, hp, ht]
            by_cases hq : player = ctx.hero ∧ act_type ∈ BET_TYPES ∧ 0 < a.amount ∧ bs = false
            · rw [if_pos hq]
              have hspecq := flop_emit_some_of_q ctx st acted bs player act_type a.amount rest
                n snap hrec hcnt h2n hsnap hne hq
              by_cases hpot : 0 < st.total_pot
              · rw [if_pos hpot]
                obtain ⟨e, hemit, hratio⟩ := hspecq.1 hpot
                have hev := flop_step_events ctx st acted bs player act_type a.amount rest
                rw [hemit] at hev
                have hrest := flop_go_recorded ctx rest
                  (flop_step ctx st acted bs player act_type a.amount rest).1
                  (insert player acted)
                  (flop_step ctx st acted bs player act_type a.amount rest).2
                  (by rw [hev.2])
                exact Or.inr ⟨st.total_pot, a.amount, e, rfl, hpot,
                  by rw [hrest.1, hev.1], hratio⟩
              · rw [if_neg hpot]
                have hemit := hspecq.2 hpot
                have hev := flop_step_events ctx st acted bs player act_type a.amount rest
                rw [hemit] at hev
                have hbs := flop_step_bs ctx st acted bs player act_type a.amount rest
                have hbs2 : (flop_step ctx st acted bs player act_type a.amount rest).2 = true := by
                  rw [hbs]
                  have : decide ((act_type ∈ BET_TYPES ∨ act_type ∈ RAISE_TYPES) ∧
                      0 < a.amount) = true := by
                    simp only [decide_eq_true_eq]
                    exact ⟨Or.inl hq.2.1, hq.2.2.1⟩
                  rw [this, Bool.or_true]
                rw [hbs2]
                have hrest := flop_go_bet_seen ctx rest
                  (flop_step ctx st acted bs player act_type a.amount rest).1
                  (insert player acted)
                exact Or.inl ⟨rfl, by rw [hrest.1, hev.1]⟩
            · rw [if_neg hq]
              have hemit := flop_emit_none_of_notq ctx st acted bs player act_type a.amount
                rest hq
              have hev := flop_step_events ctx st acted bs player act_type a.amount rest
              rw [hemit] at hev
              have hpotstep := flop_step_pot ctx st acted bs player act_type a.amount rest
              have hfpc := flop_step_fpc ctx st acted bs player act_type a.amount rest
              have hbs := flop_step_bs ctx st acted bs player act_type a.amount rest
              rw [hbs]
              have := ih (flop_step ctx st acted bs player act_type a.amount rest).1
                (insert player acted)
                (bs || (decide ((act_type ∈ BET_TYPES ∨ act_type ∈ RAISE_TYPES) ∧ 0 < a.amount)))
                n snap (by rw [hev.2, hrec]) (by rw [hfpc.1, hcnt]) h2n
                (by rw [hfpc.2, hsnap]) hne
              rw [hpotstep, hev.1] at this
              exact this

end Builder


namespace Builder

lemma flop_emit_recorded_false (ctx : HandCtx) (st : WalkSt) (acted : Finset String)
    (bs : Bool) (player act_type : String) (amount : ℚ) (rest : List BAction) (e : BEvent)
    (h : flop_emit ctx st acted bs player act_type amount rest = some e) :
    st.hero_event_recorded = false := by
  by_cases hrec : st.hero_event_recorded = true
  · rw [flop_emit_none_of_recorded ctx st acted bs player act_type amount rest hrec] at h
    exact absurd h (by simp)
  · exact Bool.eq_false_iff.mpr hrec

lemma flop_go_len (ctx : HandCtx) (actions : List BAction) :
    ∀ (st : WalkSt) (acted : Finset String) (bs : Bool),
    st.events.length ≤ (if st.hero_event_recorded = true then 1 else 0) →
    (flop_go ctx st acted bs actions).events.length ≤
      (if (flop_go ctx st acted bs actions).hero_event_recorded = true then 1 else 0) := by
  induction actions with
  | nil => intro st acted bs h; exact h
  | cons a rest ih =>
    intro st acted bs h
    cases hp : a.player with
    | none => simp only [flop_go, hp]; exact ih st acted bs h
    | some player =>
        cases ht : a.type with
        | none => simp only [flop_go, hp, ht]; exact ih st acted bs h
        | some act_type =>
            simp only [flop_go, hp, ht]
            have hev := flop_step_events ctx st acted bs player act_type a.amount rest
            refine ih _ (insert player acted) _ ?_
            cases hemit : flop_emit ctx st acted bs player act_type a.amount rest with
            | none =>
                rw [hemit] at hev
                rw [hev.1, hev.2]
                exact h
            | some e =>
                rw [hemit] at hev
                have hrec := flop_emit_recorded_false ctx st acted bs player act_type
                  a.amount rest e hemit
                have h0 : st.events.length = 0 := by
                  rw [hrec] at h
                  simpa using h
                rw [hev.1, hev.2]
                simp [List.length_append, h0]

lemma walk_rounds_len (ctx : HandCtx) (rounds : List BRound) :
    ∀ (st : WalkSt),
    st.events.length ≤ (if st.hero_event_recorded = true then 1 else 0) →
    (walk_rounds ctx st rounds).events.length ≤
      (if (walk_rounds ctx st rounds).hero_event_recorded = true then 1 else 0) := by
  induction rounds with
  | nil => intro st h; exact h
  | cons r rs ih =>
    intro st h
    by_cases h1 : r.no = 1
    · rw [show walk_rounds ctx st (r :: rs) = walk_rounds ctx (preflop_go st r.actions) rs from
        by rw [walk_rounds, if_pos h1]]
      refine ih _ ?_
      have := preflop_go_fields st r.actions
      rw [this.1, this.2.1]
      exact h
    · by_cases h2 : r.no = 2
      · by_cases hcard : st.active_players.card < 2
        · rw [show walk_rounds ctx st (r :: rs) = st from
            by rw [walk_rounds, if_neg h1, if_pos h2, if_pos hcard]]
          exact h
        · set st1 := if st.flop_player_count = none then
              { st with
                  flop_player_count := some st.active_players.card
                  flop_active_snapshot := some st.active_players }
            else st with hst1
          rw [show walk_rounds ctx st (r :: rs) =
              walk_rounds ctx (flop_go ctx st1 ∅ false r.actions) rs from
            by rw [walk_rounds, if_neg h1, if_pos h2, if_neg hcard]]
          refine ih _ ?_
          refine flop_go_len ctx r.actions st1 ∅ false ?_
          have : st1.events = st.events ∧ st1.hero_event_recorded = st.hero_event_recorded := by
            rw [hst1]; split <;> simp
          rw [this.1, this.2]
          exact h
      · rw [show walk_rounds ctx st (r :: rs) = walk_rounds ctx (other_go st r.actions) rs from
          by rw [walk_rounds, if_neg h1, if_neg h2]]
        refine ih _ ?_
        have := other_go_fields st r.actions
        rw [this.1, this.2.1]
        exact h

lemma events_from_hand_len (hero : String) (players : List PlayerInfo)
    (big_blind : Option ℚ) (rounds : List BRound) :
    (events_from_hand hero players big_blind rounds).length ≤ 1 := by
  unfold events_from_hand
  split
  · simp
  · split
    · rename_i hero_label _ _ _
      cases big_blind with
      | none => simp
      | some bb =>
          simp only
          split
          · simp
          · have := walk_rounds_len ⟨hero, hero_label, position_index players, bb⟩
              (sortedBy (fun r1 r2 => decide (r1.no ≤ r2.no)) rounds) (initSt players)
              (by simp [initSt])
            split at this <;> omega
    · simp

end Builder


/-- C1 (amended): the builder emits at most one bet event per hand, and on
the flop street the event fires exactly at the first hero action of type
bet/all-in (`BET_TYPES`, not raise) with positive amount before any
bet/raise has fired, with ratio = amount / pot-before, and is dropped when
the pot-before is zero. -/
theorem C1_bet_event_rule :
    (∀ (hero : String) (players : List Builder.PlayerInfo) (big_blind : Option ℚ)
        (rounds : List Builder.BRound),
      (Builder.events_from_hand hero players big_blind rounds).length ≤ 1) ∧
    (∀ (ctx : Builder.HandCtx) (st : Builder.WalkSt) (acted : Finset String) (bs : Bool)
        (n : ℕ) (snap : Finset String) (actions : List Builder.BAction),
      st.hero_event_recorded = false →
      st.flop_player_count = some n → 2 ≤ n →
      st.flop_active_snapshot = some snap → snap.Nonempty →
      (Builder.spec_flop_event Builder.BET_TYPES ctx.hero st.total_pot bs actions = none ∧
        (Builder.flop_go ctx st acted bs actions).events = st.events) ∨
      (∃ pb amt e,
        Builder.spec_flop_event Builder.BET_TYPES ctx.hero st.total_pot bs actions =
          some (pb, amt) ∧
        0 < pb ∧ (Builder.flop_go ctx st acted bs actions).events = st.events ++ [e] ∧
        e.ratio = amt / pb)) := by
  refine ⟨Builder.events_from_hand_len, ?_⟩
  intro ctx st acted bs n snap actions hrec hcnt h2n hsnap hne
  exact Builder.flop_go_correspondence ctx actions st acted bs n snap hrec hcnt h2n hsnap hne

/-- C1 witness: a concrete hand stays within one event, and a concrete flop
state with hero betting 2 into a pot of 1 yields exactly one appended event
of ratio 2. -/
theorem C1_bet_event_rule_witness :
    (Builder.events_from_hand "H" [⟨"H", 1, true⟩, ⟨"V", 2, false⟩] (some 1)
      [⟨1, [⟨some "V", some "3", 1⟩]⟩, ⟨2, [⟨some "H", some "5", 2⟩]⟩]).length ≤ 1 ∧
    ((Builder.spec_flop_event Builder.BET_TYPES
        (Builder.HandCtx.mk "H" "BTN" (fun _ => none) 1).hero
        (Builder.WalkSt.mk 1 {"H", "V"} none [] (some 2) (some {"H", "V"}) false).total_pot
        false [⟨some "H", some "5", 2⟩] = none ∧
      (Builder.flop_go (Builder.HandCtx.mk "H" "BTN" (fun _ => none) 1)
        (Builder.WalkSt.mk 1 {"H", "V"} none [] (some 2) (some {"H", "V"}) false)
        ∅ false [⟨some "H", some "5", 2⟩]).events =
        (Builder.WalkSt.mk 1 {"H", "V"} none [] (some 2) (some {"H", "V"}) false).events) ∨
    (∃ pb amt e,
      Builder.spec_flop_event Builder.BET_TYPES
        (Builder.HandCtx.mk "H" "BTN" (fun _ => none) 1).hero
        (Builder.WalkSt.mk 1 {"H", "V"} none [] (some 2) (some {"H", "V"}) false).total_pot
        false [⟨some "H", some "5", 2⟩] = some (pb, amt) ∧
      0 < pb ∧
      (Builder.flop_go (Builder.HandCtx.mk "H" "BTN" (fun _ => none) 1)
        (Builder.WalkSt.mk 1 {"H", "V"} none [] (some 2) (some {"H", "V"}) false)
        ∅ false [⟨some "H", some "5", 2⟩]).events =
        (Builder.WalkSt.mk 1 {"H", "V"} none [] (some 2) (some {"H", "V"}) false).events ++ [e] ∧
      e.ratio = amt / pb)) := by
  constructor
  · exact C1_bet_event_rule.1 "H" _ _ _
  · exact C1_bet_event_rule.2 (Builder.HandCtx.mk "H" "BTN" (fun _ => none) 1)
      (Builder.WalkSt.mk 1 {"H", "V"} none [] (some 2) (some {"H", "V"}) false)
      ∅ false 2 {"H", "V"} [⟨some "H", some "5", 2⟩]
      rfl rfl (by decide) rfl (by decide)

/-- C1 counterexample: hero raises (action type 23) as the first qualifying
action of the flop with positive amount into a positive pot; the claim's
rule (bet/raise/all-in triggers) produces an event of ratio 2/1, but the
builder, whose trigger list `BET_TYPES` holds only bet (5) and all-in (7),
emits nothing for the whole hand. -/
theorem C1_raise_drops_event_counterexample :
    Builder.spec_flop_event Builder.claim_bet_types "H" 1 false
      [⟨some "H", some "23", 2⟩] = some (1, 2) ∧
    Builder.events_from_hand "H" [⟨"H", 1, true⟩, ⟨"V", 2, false⟩] (some 1)
      [⟨1, [⟨some "V", some "3", 1⟩]⟩, ⟨2, [⟨some "H", some "23", 2⟩]⟩] = [] := by
  constructor
  · rfl
  · rfl


namespace Builder

lemma posValidSum_nonneg (actions : List BAction) : 0 ≤ posValidSum actions := by
  unfold posValidSum
  refine List.sum_nonneg ?_
  intro x hx
  obtain ⟨a, ha, rfl⟩ := List.mem_map.mp hx
  have := List.mem_filter.mp ha
  have h := this.2
  simp only [Bool.and_eq_true, decide_eq_true_eq] at h
  exact le_of_lt h.2

lemma posSum_nonneg (actions : List BAction) : 0 ≤ posSum actions := by
  unfold posSum
  refine List.sum_nonneg ?_
  intro x hx
  obtain ⟨a, ha, rfl⟩ := List.mem_map.mp hx
  have := List.mem_filter.mp ha
  have h := this.2
  simp only [decide_eq_true_eq] at h
  exact le_of_lt h

lemma walk_rounds_pot_mono (ctx : HandCtx) (rounds : List BRound) :
    ∀ st : WalkSt, st.total_pot ≤ (walk_rounds ctx st rounds).total_pot := by
  induction rounds with
  | nil => intro st; exact le_refl _
  | cons r rs ih =>
    intro st
    by_cases h1 : r.no = 1
    · rw [show walk_rounds ctx st (r :: rs) = walk_rounds ctx (preflop_go st r.actions) rs from
        by rw [walk_rounds, if_pos h1]]
      refine le_trans ?_ (ih _)
      rw [(preflop_go_fields st r.actions).2.2.2.2]
      have := posValidSum_nonneg r.actions
      linarith
    · by_cases h2 : r.no = 2
      · by_cases hcard : st.active_players.card < 2
        · rw [show walk_rounds ctx st (r :: rs) = st from
            by rw [walk_rounds, if_neg h1, if_pos h2, if_pos hcard]]
        · set st1 := if st.flop_player_count = none then
              { st with
                  flop_player_count := some st.active_players.card
                  flop_active_snapshot := some st.active_players }
            else st with hst1
          rw [show walk_rounds ctx st (r :: rs) =
              walk_rounds ctx (flop_go ctx st1 ∅ false r.actions) rs from
            by rw [walk_rounds, if_neg h1, if_pos h2, if_neg hcard]]
          refine le_trans ?_ (ih _)
          rw [(flop_go_pot ctx r.actions st1 ∅ false).1]
          have hpot : st1.total_pot = st.total_pot := by
            rw [hst1]; split <;> simp
          rw [hpot]
          have := posValidSum_nonneg r.actions
          linarith
      · rw [show walk_rounds ctx st (r :: rs) = walk_rounds ctx (other_go st r.actions) rs from
          by rw [walk_rounds, if_neg h1, if_neg h2]]
        refine le_trans ?_ (ih _)
        rw [(other_go_fields st r.actions).2.2.2.2]
        have := posSum_nonneg r.actions
        linarith

end Builder

/-- C4: the running pot changes only by adding the street's positive action
amounts in each of the three action loops (so a street transition never
resets it — the pot entering any later round is at least the pot before),
while the flop street is entered with a fresh acted-player set (`∅`) and a
cleared bet-seen flag (`false`). -/
theorem C4_pot_persists_bookkeeping_resets :
    (∀ (st : Builder.WalkSt) (actions : List Builder.BAction),
      (Builder.preflop_go st actions).total_pot = st.total_pot +
        Builder.posValidSum actions) ∧
    (∀ (ctx : Builder.HandCtx) (st : Builder.WalkSt) (acted : Finset String) (bs : Bool)
        (actions : List Builder.BAction),
      (Builder.flop_go ctx st acted bs actions).total_pot = st.total_pot +
        Builder.posValidSum actions) ∧
    (∀ (st : Builder.WalkSt) (actions : List Builder.BAction),
      (Builder.other_go st actions).total_pot = st.total_pot + Builder.posSum actions) ∧
    (∀ (ctx : Builder.HandCtx) (st : Builder.WalkSt) (rounds : List Builder.BRound),
      st.total_pot ≤ (Builder.walk_rounds ctx st rounds).total_pot) ∧
    (∀ (ctx : Builder.HandCtx) (st : Builder.WalkSt) (r : Builder.BRound)
        (rs : List Builder.BRound),
      r.no = 2 → ¬ st.active_players.card < 2 →
      Builder.walk_rounds ctx st (r :: rs) =
        Builder.walk_rounds ctx
          (Builder.flop_go ctx
            (if st.flop_player_count = none then
              { st with
                  flop_player_count := some st.active_players.card
                  flop_active_snapshot := some st.active_players }
            else st) ∅ false r.actions) rs) := by
  refine ⟨?_, ?_, ?_, ?_, ?_⟩
  · intro st actions; exact (Builder.preflop_go_fields st actions).2.2.2.2
  · intro ctx st acted bs actions; exact (Builder.flop_go_pot ctx actions st acted bs).1
  · intro st actions; exact (Builder.other_go_fields st actions).2.2.2.2
  · intro ctx st rounds; exact Builder.walk_rounds_pot_mono ctx rounds st
  · intro ctx st r rs h2 hcard
    rw [Builder.walk_rounds, if_neg (by omega), if_pos h2, if_neg hcard]

/-- C4 witness: on a concrete two-round hand the pot equations, the
monotonicity bound and the flop-entry reset all hold at once. -/
theorem C4_pot_persists_bookkeeping_resets_witness :
    ((Builder.preflop_go (Builder.WalkSt.mk 0 {"H", "V"} none [] none none false)
        [⟨some "V", some "3", 1⟩]).total_pot =
      (Builder.WalkSt.mk 0 {"H", "V"} none [] none none false).total_pot +
        Builder.posValidSum [⟨some "V", some "3", 1⟩]) ∧
    ((Builder.WalkSt.mk 1 {"H", "V"} none [] none none false).total_pot ≤
      (Builder.walk_rounds (Builder.HandCtx.mk "H" "BTN" (fun _ => none) 1)
        (Builder.WalkSt.mk 1 {"H", "V"} none [] none none false)
        [⟨2, [⟨some "H", some "5", 2⟩]⟩]).total_pot) ∧
    (Builder.walk_rounds (Builder.HandCtx.mk "H" "BTN" (fun _ => none) 1)
        (Builder.WalkSt.mk 1 {"H", "V"} none [] none none false)
        (⟨2, [⟨some "H", some "5", 2⟩]⟩ :: []) =
      Builder.walk_rounds (Builder.HandCtx.mk "H" "BTN" (fun _ => none) 1)
        (Builder.flop_go (Builder.HandCtx.mk "H" "BTN" (fun _ => none) 1)
          (if (Builder.WalkSt.mk 1 {"H", "V"} none [] none none false).flop_player_count = none
           then { Builder.WalkSt.mk 1 {"H", "V"} none [] none none false with
                    flop_player_count := some
                      (Builder.WalkSt.mk 1 {"H", "V"} none [] none none
                        false).active_players.card
                    flop_active_snapshot := some
                      (Builder.WalkSt.mk 1 {"H", "V"} none [] none none
                        false).active_players }
           else Builder.WalkSt.mk 1 {"H", "V"} none [] none none false)
          ∅ false [⟨some "H", some "5", 2⟩]) []) := by
  refine ⟨C4_pot_persists_bookkeeping_resets.1 _ _, C4_pot_persists_bookkeeping_resets.2.2.2.1 _ _ _, ?_⟩
  exact C4_pot_persists_bookkeeping_resets.2.2.2.2
    (Builder.HandCtx.mk "H" "BTN" (fun _ => none) 1)
    (Builder.WalkSt.mk 1 {"H", "V"} none [] none none false)
    ⟨2, [⟨some "H", some "5", 2⟩]⟩ [] rfl (by decide)


namespace Cbet

lemma foldl_pres {σ α : Type} (f : σ → α → σ) (P : σ → Prop)
    (h : ∀ s a, P s → P (f s a)) :
    ∀ (l : List α) (s : σ), P s → P (l.foldl f s) := by
  intro l
  induction l with
  | nil => intro s hs; exact hs
  | cons a t ih => intro s hs; exact ih _ (h s a hs)

lemma flushCur_ok (st : CbetSt) (h : st_ok st) : st_ok (flushCur st) := by
  unfold flushCur
  cases hc : st.current_event with
  | none => exact h
  | some cur =>
      have hcur : cur_ok (some cur) st.responders_recorded := hc ▸ h.2
      refine ⟨?_, trivial⟩
      intro e he
      rcases List.mem_append.mp he with hold | hnew
      · exact h.1 e hold
      · rw [List.mem_singleton.mp hnew]
        exact hcur.1

lemma agg_step_ok (pocket : String → Option (List PCard)) (round_no : ℕ) (st : CbetSt)
    (player : String) (act_type : Option String) (amount : ℚ) (h : st_ok st) :
    st_ok (agg_step pocket round_no st player act_type amount) := by
  unfold agg_step
  split
  · exact h
  · split
    · simp only
      split
      · split
        · split
          · refine ⟨?_, ?_, ?_⟩
            · intro e he
              exact (flushCur_ok { st with
                flop_actions := st.flop_actions ++ [(player, act_type)],
                flop_players_set := insert player st.flop_players_set } h).1 e he
            · exact ⟨List.nodup_nil, rfl⟩
            · intro r hr
              exact absurd hr (List.not_mem_nil r)
          · exact h
        all_goals exact h
      · exact h
    · exact h

lemma resp_step_ok (round_no : ℕ) (st : CbetSt) (player : String)
    (act_type : Option String) (amount : ℚ) (h : st_ok st) :
    st_ok (resp_step round_no st player act_type amount) := by
  unfold resp_step
  split
  · cases hc : st.current_event with
    | none => exact h
    | some cur =>
        have hcur : cur_ok (some cur) st.responders_recorded := hc ▸ h.2
        simp only
        split
        · rename_i hcond
          cases hk : respKind act_type with
          | none => exact h
          | some kind =>
              refine ⟨h.1, ?_, ?_⟩
              · constructor
                · rw [List.map_append]
                  refine List.Nodup.append hcur.1.1 (List.nodup_singleton _) ?_
                  intro x hx hx2
                  have hxp : x = player := by simpa using hx2
                  subst hxp
                  obtain ⟨r, hr, hrp⟩ := List.mem_map.mp hx
                  exact absurd (hrp ▸ hcur.2 r hr) hcond.2
                · rw [List.all_append]
                  refine Bool.and_eq_true_iff.mpr ⟨hcur.1.2, ?_⟩
                  simp [hk, hcond.1]
              · intro r hr
                rcases List.mem_append.mp hr with hold | hnew
                · exact Finset.mem_insert_of_mem (hcur.2 r hold)
                · rw [List.mem_singleton.mp hnew]
                  exact Finset.mem_insert_self _ _
        · exact h
  · exact h

lemma cbet_action_ok (pocket : String → Option (List PCard)) (round_no : ℕ) (st : CbetSt)
    (a : CAction) (h : st_ok st) : st_ok (cbet_action pocket round_no st a) := by
  unfold cbet_action
  cases hp : a.player with
  | none => exact h
  | some player =>
      simp only
      split
      · exact h
      · have h2 := resp_step_ok round_no _ player a.type a.amount
          (agg_step_ok pocket round_no st player a.type a.amount h)
        split
        · exact h2
        · exact h2

lemma st_ok_if {st : CbetSt} (c : Prop) [Decidable c] (st2 : CbetSt)
    (h2 : st_ok st2) (h : st_ok st) : st_ok (if c then st2 else st) := by
  split
  · exact h2
  · exact h

lemma st_ok_match_fc (st : CbetSt) (ft : Option (Option String)) (h : st_ok st) :
    st_ok (match ft with
      | some t => { st with flop_cards := some (cparse t) }
      | none => st) := by
  cases ft
  · exact h
  · exact h

lemma cbet_round_ok (pocket : String → Option (List PCard)) (st : CbetSt) (rnd : CRound)
    (h : st_ok st) : st_ok (cbet_round pocket st rnd) := by
  simp only [cbet_round]
  have h0 : st_ok (if rnd.no = 2 ∧ st.flop_cards = none then
      match rnd.flopText with
      | some t => { st with flop_cards := some (cparse t) }
      | none => st
    else st) := st_ok_if _ _ (st_ok_match_fc st rnd.flopText h) h
  split
  · refine flushCur_ok _ ?_
    refine foldl_pres _ st_ok (fun s a hs => cbet_action_ok pocket rnd.no s a hs) _ _ ?_
    exact st_ok_if _ _ h0 h0
  · refine foldl_pres _ st_ok (fun s a hs => cbet_action_ok pocket rnd.no s a hs) _ _ ?_
    exact st_ok_if _ _ h0 h0

lemma load_cbet_events_hand_ok (pocket : String → Option (List PCard))
    (rounds : List CRound) (e : CEvent) (he : e ∈ load_cbet_events_hand pocket rounds) :
    event_resp_ok e := by
  unfold load_cbet_events_hand at he
  have hinit : st_ok initCbet := ⟨fun e he => absurd he (List.not_mem_nil e), trivial⟩
  have hfold := foldl_pres (cbet_round pocket) st_ok
    (fun s r hs => cbet_round_ok pocket s r hs)
    (sortedBy (fun r1 r2 => decide (r1.no ≤ r2.no)) rounds) initCbet hinit
  exact (flushCur_ok _ hfold).1 e he

end Cbet


namespace Cbet

lemma headD_mem {α : Type} (l : List α) (d : α) (h : l ≠ []) : l.headD d ∈ l := by
  cases l with
  | nil => exact absurd rfl h
  | cons a t => exact List.mem_cons_self a t

lemma cx_load : load_cbet_events_hand cxPocket cxRounds = [cxEventFull] := by
  have hsort : sortedBy (fun r1 r2 => decide (r1.no ≤ r2.no)) cxRounds = cxRounds := rfl
  have h1 : cbet_round cxPocket initCbet ⟨1, none, [⟨some "H", some "23", 1⟩]⟩ =
      ⟨0 + 1, some "H", false, none, ∅, [], none, ∅, none, []⟩ := rfl
  have h1' : (⟨0 + 1, some "H", false, none, ∅, [], none, ∅, none, []⟩ : CbetSt) =
      ⟨1, some "H", false, none, ∅, [], none, ∅, none, []⟩ := by
    norm_num [CbetSt.mk.injEq]
  have h2 : cbet_round cxPocket ⟨1, some "H", false, none, ∅, [], none, ∅, none, []⟩
      ⟨2, some (some "S2 D7 HJ"), cxFlopActions⟩ =
      ⟨1 + 2 + 1, some "H", true,
        some [⟨'S', 2, "S2"⟩, ⟨'D', 7, "D7"⟩, ⟨'H', 11, "HJ"⟩],
        insert "V" (insert "V" (insert "H" ∅)),
        [("H", some "5"), ("V", some "1"), ("V", some "0")],
        some cxEventFull, insert "V" ∅, some 2, []⟩ := rfl
  unfold load_cbet_events_hand
  rw [hsort]
  show (flushCur (cbet_round cxPocket
    (cbet_round cxPocket initCbet ⟨1, none, [⟨some "H", some "23", 1⟩]⟩)
    ⟨2, some (some "S2 D7 HJ"), cxFlopActions⟩)).finished_events = [cxEventFull]
  rw [h1, h1', h2]
  rfl

end Cbet

/-- C3 (amended): for every event the checkpoint walker produces, the
responder names are pairwise distinct (at most one response per
(event, opponent) pair), the bettor never responds to its own event, and
every recorded response carries the classification its action type maps
to (fold/check to Fold, call to Call, raise/bet to Raise) — but the
recorded action is the opponent's first action of a MAPPED type after
the event, not necessarily the opponent's first action. -/
theorem C3_response_rule (pocket : String → Option (List Cbet.PCard))
    (rounds : List Cbet.CRound) (e : Cbet.CEvent)
    (he : e ∈ Cbet.load_cbet_events_hand pocket rounds) :
    (e.responses.map Cbet.CResponse.player).Nodup ∧
    e.responses.all (fun r => decide (r.player ≠ e.player) &&
      (Cbet.respKind r.action_type == some r.response)) = true :=
  Cbet.load_cbet_events_hand_ok pocket rounds e he

/-- C3 witness: the single event of the concrete hand `cxRounds` has
distinct responders, no self-response and a correctly mapped response
kind. -/
theorem C3_response_rule_witness :
    (Cbet.cxEvent0.responses.map Cbet.CResponse.player).Nodup ∧
    Cbet.cxEvent0.responses.all (fun r => decide (r.player ≠ Cbet.cxEvent0.player) &&
      (Cbet.respKind r.action_type == some r.response)) = true :=
  C3_response_rule Cbet.cxPocket Cbet.cxRounds Cbet.cxEvent0 (by
    have h : Cbet.cxEvent0 = Cbet.cxEventFull := by
      rw [Cbet.cxEvent0, Cbet.cx_load]
      rfl
    rw [h, Cbet.cx_load]
    exact List.mem_singleton.mpr rfl)

/-- C3 counterexample: after `H`'s c-bet, opponent `V`'s FIRST flop action
is a post (type `1`, amount 1), which the claim says should be the one
classified; the walker skips it (no response kind maps to `1`) without
marking `V` and instead records `V`'s second action, the fold (type `0`,
amount 0). -/
theorem C3_first_action_counterexample :
    (Cbet.load_cbet_events_hand Cbet.cxPocket Cbet.cxRounds).map Cbet.CEvent.responses =
      [[⟨"V", some "0", "Fold", 0⟩]] ∧
    Cbet.first_opp_action "V" Cbet.cxAfterBet = some ⟨some "V", some "1", 1⟩ ∧
    Cbet.respKind (some "1") = none ∧
    (some "0" : Option String) ≠ some "1" := by
  refine ⟨?_, rfl, rfl, by decide⟩
  rw [Cbet.cx_load]
  rfl


/-- C2 witness: on a concrete five-card hand making both a full house and a
flush, the guarded chain agrees with the spec's first match and reports
Full House. -/
theorem C2_classify_first_match_witness :
    (Cbet.classify_hand [⟨'S', 14, "SA"⟩, ⟨'S', 14, "SA"⟩]
        [⟨'S', 14, "SA"⟩, ⟨'S', 13, "SK"⟩, ⟨'S', 13, "SK"⟩]).primary =
      Cbet.spec_primary [⟨'S', 14, "SA"⟩, ⟨'S', 14, "SA"⟩]
        [⟨'S', 14, "SA"⟩, ⟨'S', 13, "SK"⟩, ⟨'S', 13, "SK"⟩] ∧
    (Cbet.made_full [⟨'S', 14, "SA"⟩, ⟨'S', 14, "SA"⟩]
        [⟨'S', 14, "SA"⟩, ⟨'S', 13, "SK"⟩, ⟨'S', 13, "SK"⟩] = true ∧
      Cbet.has_flush (Cbet.combined [⟨'S', 14, "SA"⟩, ⟨'S', 14, "SA"⟩]
        [⟨'S', 14, "SA"⟩, ⟨'S', 13, "SK"⟩, ⟨'S', 13, "SK"⟩]) = true →
      (Cbet.classify_hand [⟨'S', 14, "SA"⟩, ⟨'S', 14, "SA"⟩]
        [⟨'S', 14, "SA"⟩, ⟨'S', 13, "SK"⟩, ⟨'S', 13, "SK"⟩]).primary = "Full House") :=
  C2_classify_first_match [⟨'S', 14, "SA"⟩, ⟨'S', 14, "SA"⟩]
    [⟨'S', 14, "SA"⟩, ⟨'S', 13, "SK"⟩, ⟨'S', 13, "SK"⟩] rfl (by decide) (by decide)

end PokerAnalytics
